import Mathlib

/-! # nanocloud: the correlated websocket client (`src/common/cws.go`, `src/common/packet.go`)

A shallow embedding of the Go package `common` and a verification of its request/response
layer.

* Go `string` and `[]byte` are byte sequences: `List Byte` with `Byte = Fin 256`.
* `json.Marshal` / `json.Unmarshal` are the Go standard library (`encoding/json`); they are
  modelled here for the one struct the package feeds them, following the library's
  `appendString`, `scanner`, `unquoteBytes` and `decodeState.object`.
* a Go `map[string]V` is a function `List Byte → Option V`.
* caller-supplied Go functions return a value or panic: `Except String α`, the error being the
  panic value.
* `go callback(wspacket)` is recorded in the trace of `Listen` together with what the started
  goroutine does; mutexes (`sendLock`, `sendCallbackLock`) are not modelled, every operation
  below runs atomically.
-/

namespace common

/-! ## Bytes and UTF-8 (`unicode/utf8`) -/

/-- One byte of a Go `string` or `[]byte`. -/
abbrev Byte := Fin 256

/-- Conversion `byte(n)`, truncating to eight bits. -/
def byte (n : Nat) : Byte := Fin.ofNat n

/-- The rune `utf8.RuneError` (U+FFFD). -/
def RuneError : Nat := 0xFFFD

/-- Tables `first` and `acceptRanges` of `unicode/utf8`: for a lead byte, the length of the
sequence it starts and the range accepted for its second byte; `none` for a byte that starts
no multi-byte sequence. -/
def leadInfo (b : Nat) : Option (Nat × Nat × Nat) :=
  if 0xC2 ≤ b ∧ b ≤ 0xDF then some (2, 0x80, 0xBF)
  else if b = 0xE0 then some (3, 0xA0, 0xBF)
  else if 0xE1 ≤ b ∧ b ≤ 0xEC then some (3, 0x80, 0xBF)
  else if b = 0xED then some (3, 0x80, 0x9F)
  else if 0xEE ≤ b ∧ b ≤ 0xEF then some (3, 0x80, 0xBF)
  else if b = 0xF0 then some (4, 0x90, 0xBF)
  else if 0xF1 ≤ b ∧ b ≤ 0xF3 then some (4, 0x80, 0xBF)
  else if b = 0xF4 then some (4, 0x80, 0x8F)
  else none

/-- Function `utf8.DecodeRune`: the first rune of `s` and its width in bytes; `(RuneError, 1)`
for an invalid encoding, `(RuneError, 0)` for the empty input. The masks and shifts of the Go
code are written with `%` and `*`. -/
def DecodeRune (s : List Byte) : Nat × Nat :=
  match s with
  | [] => (RuneError, 0)
  | s0 :: tl =>
    if s0.val < 0x80 then (s0.val, 1)
    else match leadInfo s0.val with
      | none => (RuneError, 1)
      | some (sz, lo, hi) =>
        if tl.length + 1 < sz then (RuneError, 1)
        else match tl with
          | [] => (RuneError, 1)
          | s1 :: tl1 =>
            if s1.val < lo ∨ hi < s1.val then (RuneError, 1)
            else if sz ≤ 2 then (s0.val % 32 * 64 + s1.val % 64, 2)
            else match tl1 with
              | [] => (RuneError, 1)
              | s2 :: tl2 =>
                if s2.val < 0x80 ∨ 0xBF < s2.val then (RuneError, 1)
                else if sz ≤ 3 then (s0.val % 16 * 4096 + s1.val % 64 * 64 + s2.val % 64, 3)
                else match tl2 with
                  | [] => (RuneError, 1)
                  | s3 :: _ =>
                    if s3.val < 0x80 ∨ 0xBF < s3.val then (RuneError, 1)
                    else (s0.val % 8 * 262144 + s1.val % 64 * 4096 + s2.val % 64 * 64
                            + s3.val % 64, 4)

/-- Function `utf8.EncodeRune` (`utf8.AppendRune` onto the empty slice): the UTF-8 encoding of
a rune, surrogates and values above U+10FFFF being written as U+FFFD. -/
def EncodeRune (r : Nat) : List Byte :=
  if r ≤ 0x7F then [byte r]
  else if r ≤ 0x7FF then [byte (0xC0 + r / 64), byte (0x80 + r % 64)]
  else
    let r3 := if 0x10FFFF < r ∨ (0xD800 ≤ r ∧ r ≤ 0xDFFF) then RuneError else r
    if r3 ≤ 0xFFFF then
      [byte (0xE0 + r3 / 4096), byte (0x80 + r3 / 64 % 64), byte (0x80 + r3 % 64)]
    else
      [byte (0xF0 + r / 262144), byte (0x80 + r / 4096 % 64), byte (0x80 + r / 64 % 64),
        byte (0x80 + r % 64)]

/-- Function `utf8.Valid`: every rune of `s` decodes without error. -/
def Valid : List Byte → Bool
  | [] => true
  | b :: tl =>
    if b.val < 0x80 then Valid tl
    else
      match (DecodeRune (b :: tl)).2, tl with
      | 2, _ :: t2 => Valid t2
      | 3, _ :: _ :: t3 => Valid t3
      | 4, _ :: _ :: _ :: t4 => Valid t4
      | _, _ => false

/-- A Go string literal: the UTF-8 bytes of the text. -/
def str (s : String) : List Byte := s.data.flatMap fun c => EncodeRune c.toNat

/-! ## The packet (`cws.go` lines 23-30) -/

/-- Struct `WSPacket`; the field `Type` is spelled `Type_`. -/
structure WSPacket where
  Type_ : List Byte
  Data : List Byte
  PacketID : List Byte
  SessionID : List Byte
  deriving DecidableEq, Repr

/-- Variable `EmptyPacket = WSPacket{}`. -/
def EmptyPacket : WSPacket := ⟨[], [], [], []⟩

/-- Struct `Packet` of `packet.go`; JSON names `type` and `data`. -/
structure Packet where
  PType : List Byte
  Data : List Byte
  deriving DecidableEq, Repr

/-! ## `json.Marshal` on the two structs (`encoding/json`, `encode.go`) -/

/-- String `hex` of `encoding/json`: the lower-case hexadecimal digit of `n < 16`. -/
def hexDigit (n : Nat) : Byte := byte (if n < 10 then 0x30 + n else 0x57 + n)

/-- Table `htmlSafeSet`: the ASCII bytes written unescaped, all from space on except the
double quote, the ampersand, the angle brackets and the backslash. -/
def htmlSafeSet (b : Nat) : Bool :=
  decide (0x20 ≤ b ∧ b < 0x80 ∧ b ≠ 0x22 ∧ b ≠ 0x26 ∧ b ≠ 0x3C ∧ b ≠ 0x3E ∧ b ≠ 0x5C)

/-- Escape written by `appendString` for an ASCII byte outside `htmlSafeSet`. -/
def appendEscape (b : Byte) : List Byte :=
  if b.val = 0x5C ∨ b.val = 0x22 then [0x5C, b]
  else if b.val = 0x08 then [0x5C, 0x62]
  else if b.val = 0x0C then [0x5C, 0x66]
  else if b.val = 0x0A then [0x5C, 0x6E]
  else if b.val = 0x0D then [0x5C, 0x72]
  else if b.val = 0x09 then [0x5C, 0x74]
  else [0x5C, 0x75, 0x30, 0x30, hexDigit (b.val / 16), hexDigit (b.val % 16)]

/-- Loop of `appendString` with `escapeHTML` set, as `json.Marshal` does: safe ASCII and valid
multi-byte runes are copied, other ASCII is escaped, an invalid byte becomes the
six-byte escape of U+FFFD, and U+2028 and U+2029 are written as escapes. -/
def appendStringLoop : List Byte → List Byte
  | [] => []
  | b :: tl =>
    if b.val < 0x80 then
      if htmlSafeSet b.val then b :: appendStringLoop tl
      else appendEscape b ++ appendStringLoop tl
    else
      let c := (DecodeRune (b :: tl)).1
      let size := (DecodeRune (b :: tl)).2
      if c = RuneError ∧ size = 1 then
        [0x5C, 0x75, 0x66, 0x66, 0x66, 0x64] ++ appendStringLoop tl
      else
        match size, tl with
        | 2, b1 :: t2 => b :: b1 :: appendStringLoop t2
        | 3, b1 :: b2 :: t3 =>
          if c = 0x2028 ∨ c = 0x2029 then
            [0x5C, 0x75, 0x32, 0x30, 0x32, hexDigit (c % 16)] ++ appendStringLoop t3
          else b :: b1 :: b2 :: appendStringLoop t3
        | 4, b1 :: b2 :: b3 :: t4 => b :: b1 :: b2 :: b3 :: appendStringLoop t4
        | _, _ => []

/-- Function `appendString`: the JSON string literal for `src`, quotes included. -/
def appendString (src : List Byte) : List Byte := 0x22 :: (appendStringLoop src ++ [0x22])

/-- Call `json.Marshal(p)` for a `WSPacket`: the object with the four tagged fields in
declaration order. It has no failing case for a struct of strings, so the result is always
`.ok`. -/
def Marshal (p : WSPacket) : Except String (List Byte) :=
  .ok (0x7B :: (str "\"type\":" ++ appendString p.Type_ ++ str ",\"data\":"
    ++ appendString p.Data ++ str ",\"packet_id\":" ++ appendString p.PacketID
    ++ str ",\"session_id\":" ++ appendString p.SessionID ++ [0x7D]))

/-- Call `json.Marshal(packet)` for a `Packet` of `packet.go`. -/
def MarshalPacket (p : Packet) : Except String (List Byte) :=
  .ok (0x7B :: (str "\"type\":" ++ appendString p.PType ++ str ",\"data\":"
    ++ appendString p.Data ++ [0x7D]))

/-! ## `json.Unmarshal` into a `WSPacket` (`encoding/json`, `scanner.go` and `decode.go`)

`Unmarshal` first runs `checkValid` over the whole input with the library's state machine, then
decodes the validated text. -/

/-- Constants `parseObjectKey`, `parseObjectValue`, `parseArrayValue`: what the scanner is in
the middle of. -/
inductive ParseState
  | parseObjectKey | parseObjectValue | parseArrayValue
  deriving DecidableEq, Repr

/-- The state functions a `scanner.step` can hold. -/
inductive Step
  | stateBeginValue | stateBeginValueOrEmpty | stateBeginStringOrEmpty | stateBeginString
  | stateEndValue | stateEndTop
  | stateInString | stateInStringEsc | stateInStringEscU | stateInStringEscU1
  | stateInStringEscU12 | stateInStringEscU123
  | stateNeg | state1 | state0 | stateDot | stateDot0 | stateE | stateESign | stateE0
  | stateT | stateTr | stateTru | stateF | stateFa | stateFal | stateFals
  | stateN | stateNu | stateNul | stateError
  deriving DecidableEq, Repr

/-- Scan codes returned by a state function. -/
inductive Op
  | scanContinue | scanBeginLiteral | scanBeginObject | scanObjectKey | scanObjectValue
  | scanEndObject | scanBeginArray | scanArrayValue | scanEndArray | scanSkipSpace
  | scanEnd | scanError
  deriving DecidableEq, Repr

/-- Struct `scanner`: the next state function, whether the top-level value has ended, the stack
of open composites (innermost first) and whether `err` is set. -/
structure scanner where
  step : Step
  endTop : Bool
  parseState : List ParseState
  err : Bool
  deriving DecidableEq, Repr

/-- Constant `maxNestingDepth`. -/
def maxNestingDepth : Nat := 10000

/-- Method `scanner.reset`. -/
def scanner.reset : scanner := ⟨.stateBeginValue, false, [], false⟩

/-- Method `scanner.error`: record a syntax error and stop. -/
def scanner.error (s : scanner) : scanner × Op :=
  ({ s with step := .stateError, err := true }, .scanError)

/-- Method `scanner.pushParseState`. -/
def scanner.pushParseState (s : scanner) (newParseState : ParseState) (successState : Op) :
    scanner × Op :=
  let s1 := { s with parseState := newParseState :: s.parseState }
  if s1.parseState.length ≤ maxNestingDepth then (s1, successState) else s1.error

/-- Method `scanner.popParseState`. -/
def scanner.popParseState (s : scanner) : scanner :=
  let ps := s.parseState.tail
  if ps.length = 0 then { s with parseState := ps, step := .stateEndTop, endTop := true }
  else { s with parseState := ps, step := .stateEndValue }

/-- Function `isSpace`: space, tab, carriage return, line feed. -/
def isSpace (c : Byte) : Bool :=
  decide (c.val = 0x20 ∨ c.val = 0x09 ∨ c.val = 0x0D ∨ c.val = 0x0A)

/-- A decimal digit. -/
def isDigit (c : Byte) : Bool := decide (0x30 ≤ c.val ∧ c.val ≤ 0x39)

/-- A hexadecimal digit of either case. -/
def isHex (c : Byte) : Bool :=
  decide (0x30 ≤ c.val ∧ c.val ≤ 0x39 ∨ 0x61 ≤ c.val ∧ c.val ≤ 0x66 ∨ 0x41 ≤ c.val ∧ c.val ≤ 0x46)

/-- State `stateEndTop`: after the top-level value only space may follow; the error raised for
another byte is reported on the next call. -/
def stateEndTop (s : scanner) (c : Byte) : scanner × Op :=
  if !isSpace c then ((s.error).1, .scanEnd) else (s, .scanEnd)

/-- State `stateEndValue`: after a value, in the context given by the top of the stack. -/
def stateEndValue (s : scanner) (c : Byte) : scanner × Op :=
  match s.parseState with
  | [] => stateEndTop { s with step := .stateEndTop, endTop := true } c
  | ps :: rest =>
    if isSpace c then ({ s with step := .stateEndValue }, .scanSkipSpace)
    else match ps with
      | .parseObjectKey =>
        if c.val = 0x3A then
          ({ s with parseState := .parseObjectValue :: rest, step := .stateBeginValue },
            .scanObjectKey)
        else s.error
      | .parseObjectValue =>
        if c.val = 0x2C then
          ({ s with parseState := .parseObjectKey :: rest, step := .stateBeginString },
            .scanObjectValue)
        else if c.val = 0x7D then (s.popParseState, .scanEndObject)
        else s.error
      | .parseArrayValue =>
        if c.val = 0x2C then ({ s with step := .stateBeginValue }, .scanArrayValue)
        else if c.val = 0x5D then (s.popParseState, .scanEndArray)
        else s.error

/-- State `stateBeginValue`: at the start of a value. -/
def stateBeginValue (s : scanner) (c : Byte) : scanner × Op :=
  if isSpace c then (s, .scanSkipSpace)
  else if c.val = 0x7B then
    { s with step := .stateBeginStringOrEmpty }.pushParseState .parseObjectKey .scanBeginObject
  else if c.val = 0x5B then
    { s with step := .stateBeginValueOrEmpty }.pushParseState .parseArrayValue .scanBeginArray
  else if c.val = 0x22 then ({ s with step := .stateInString }, .scanBeginLiteral)
  else if c.val = 0x2D then ({ s with step := .stateNeg }, .scanBeginLiteral)
  else if c.val = 0x30 then ({ s with step := .state0 }, .scanBeginLiteral)
  else if c.val = 0x74 then ({ s with step := .stateT }, .scanBeginLiteral)
  else if c.val = 0x66 then ({ s with step := .stateF }, .scanBeginLiteral)
  else if c.val = 0x6E then ({ s with step := .stateN }, .scanBeginLiteral)
  else if 0x31 ≤ c.val ∧ c.val ≤ 0x39 then ({ s with step := .state1 }, .scanBeginLiteral)
  else s.error

/-- State `stateBeginValueOrEmpty`: after an opening square bracket. -/
def stateBeginValueOrEmpty (s : scanner) (c : Byte) : scanner × Op :=
  if isSpace c then (s, .scanSkipSpace)
  else if c.val = 0x5D then stateEndValue s c
  else stateBeginValue s c

/-- State `stateBeginString`: after a comma in an object, a key must follow. -/
def stateBeginString (s : scanner) (c : Byte) : scanner × Op :=
  if isSpace c then (s, .scanSkipSpace)
  else if c.val = 0x22 then ({ s with step := .stateInString }, .scanBeginLiteral)
  else s.error

/-- State `stateBeginStringOrEmpty`: after an opening brace. -/
def stateBeginStringOrEmpty (s : scanner) (c : Byte) : scanner × Op :=
  if isSpace c then (s, .scanSkipSpace)
  else if c.val = 0x7D then
    stateEndValue { s with parseState := .parseObjectValue :: s.parseState.tail } c
  else stateBeginString s c

/-- State `stateInString`: inside a string literal. -/
def stateInString (s : scanner) (c : Byte) : scanner × Op :=
  if c.val = 0x22 then ({ s with step := .stateEndValue }, .scanContinue)
  else if c.val = 0x5C then ({ s with step := .stateInStringEsc }, .scanContinue)
  else if c.val < 0x20 then s.error
  else (s, .scanContinue)

/-- State `stateInStringEsc`: after a backslash in a string literal. -/
def stateInStringEsc (s : scanner) (c : Byte) : scanner × Op :=
  if c.val = 0x62 ∨ c.val = 0x66 ∨ c.val = 0x6E ∨ c.val = 0x72 ∨ c.val = 0x74 ∨ c.val = 0x5C
      ∨ c.val = 0x2F ∨ c.val = 0x22 then
    ({ s with step := .stateInString }, .scanContinue)
  else if c.val = 0x75 then ({ s with step := .stateInStringEscU }, .scanContinue)
  else s.error

/-- States `stateInStringEscU`, `stateInStringEscU1`, `stateInStringEscU12` and
`stateInStringEscU123`: one hexadecimal digit, then on to `next`. -/
def stateHex (next : Step) (s : scanner) (c : Byte) : scanner × Op :=
  if isHex c then ({ s with step := next }, .scanContinue) else s.error

/-- State `state0`: after a leading zero or the integer part of a number. -/
def state0 (s : scanner) (c : Byte) : scanner × Op :=
  if c.val = 0x2E then ({ s with step := .stateDot }, .scanContinue)
  else if c.val = 0x65 ∨ c.val = 0x45 then ({ s with step := .stateE }, .scanContinue)
  else stateEndValue s c

/-- State `state1`: inside the integer part of a number. -/
def state1 (s : scanner) (c : Byte) : scanner × Op :=
  if isDigit c then ({ s with step := .state1 }, .scanContinue) else state0 s c

/-- State `stateNeg`: after a minus sign. -/
def stateNeg (s : scanner) (c : Byte) : scanner × Op :=
  if c.val = 0x30 then ({ s with step := .state0 }, .scanContinue)
  else if 0x31 ≤ c.val ∧ c.val ≤ 0x39 then ({ s with step := .state1 }, .scanContinue)
  else s.error

/-- State `stateDot`: after the decimal point. -/
def stateDot (s : scanner) (c : Byte) : scanner × Op :=
  if isDigit c then ({ s with step := .stateDot0 }, .scanContinue) else s.error

/-- State `stateDot0`: inside the fraction. -/
def stateDot0 (s : scanner) (c : Byte) : scanner × Op :=
  if isDigit c then (s, .scanContinue)
  else if c.val = 0x65 ∨ c.val = 0x45 then ({ s with step := .stateE }, .scanContinue)
  else stateEndValue s c

/-- State `stateESign`: after the sign of an exponent. -/
def stateESign (s : scanner) (c : Byte) : scanner × Op :=
  if isDigit c then ({ s with step := .stateE0 }, .scanContinue) else s.error

/-- State `stateE`: after the exponent mark. -/
def stateE (s : scanner) (c : Byte) : scanner × Op :=
  if c.val = 0x2B ∨ c.val = 0x2D then ({ s with step := .stateESign }, .scanContinue)
  else stateESign s c

/-- State `stateE0`: inside the exponent. -/
def stateE0 (s : scanner) (c : Byte) : scanner × Op :=
  if isDigit c then (s, .scanContinue) else stateEndValue s c

/-- States `stateT` to `stateNul`: the next letter of `true`, `false` or `null`. -/
def stateLetter (expect : Nat) (next : Step) (s : scanner) (c : Byte) : scanner × Op :=
  if c.val = expect then ({ s with step := next }, .scanContinue) else s.error

/-- Call `s.step(s, c)`: run the state function the scanner holds. -/
def scanner.run (s : scanner) (c : Byte) : scanner × Op :=
  match s.step with
  | .stateBeginValue => stateBeginValue s c
  | .stateBeginValueOrEmpty => stateBeginValueOrEmpty s c
  | .stateBeginStringOrEmpty => stateBeginStringOrEmpty s c
  | .stateBeginString => stateBeginString s c
  | .stateEndValue => stateEndValue s c
  | .stateEndTop => stateEndTop s c
  | .stateInString => stateInString s c
  | .stateInStringEsc => stateInStringEsc s c
  | .stateInStringEscU => stateHex .stateInStringEscU1 s c
  | .stateInStringEscU1 => stateHex .stateInStringEscU12 s c
  | .stateInStringEscU12 => stateHex .stateInStringEscU123 s c
  | .stateInStringEscU123 => stateHex .stateInString s c
  | .stateNeg => stateNeg s c
  | .state1 => state1 s c
  | .state0 => state0 s c
  | .stateDot => stateDot s c
  | .stateDot0 => stateDot0 s c
  | .stateE => stateE s c
  | .stateESign => stateESign s c
  | .stateE0 => stateE0 s c
  | .stateT => stateLetter 0x72 .stateTr s c
  | .stateTr => stateLetter 0x75 .stateTru s c
  | .stateTru => stateLetter 0x65 .stateEndValue s c
  | .stateF => stateLetter 0x61 .stateFa s c
  | .stateFa => stateLetter 0x6C .stateFal s c
  | .stateFal => stateLetter 0x73 .stateFals s c
  | .stateFals => stateLetter 0x65 .stateEndValue s c
  | .stateN => stateLetter 0x75 .stateNu s c
  | .stateNu => stateLetter 0x6C .stateNul s c
  | .stateNul => stateLetter 0x6C .stateEndValue s c
  | .stateError => (s, .scanError)

/-- Method `scanner.eof`: the input has ended; a value still open is an error. -/
def scanner.eof (s : scanner) : scanner × Op :=
  if s.err then (s, .scanError)
  else if s.endTop then (s, .scanEnd)
  else
    let s1 := (s.run 0x20).1
    if s1.endTop then (s1, .scanEnd) else ({ s1 with err := true }, .scanError)

/-- Loop of `checkValid`: feed every byte to the scanner, then `eof`. -/
def checkValidLoop (s : scanner) : List Byte → Bool
  | [] => decide ((s.eof).2 ≠ .scanError)
  | c :: cs =>
    match s.run c with
    | (_, .scanError) => false
    | (s1, _) => checkValidLoop s1 cs

/-- Function `checkValid`: `true` when `data` is one JSON value, spaces around it allowed. -/
def checkValid (data : List Byte) : Bool := checkValidLoop scanner.reset data

/-- Value of a hexadecimal digit, as computed in `getu4`. -/
def hexValue (c : Byte) : Option Nat :=
  if 0x30 ≤ c.val ∧ c.val ≤ 0x39 then some (c.val - 0x30)
  else if 0x61 ≤ c.val ∧ c.val ≤ 0x66 then some (c.val - 0x61 + 10)
  else if 0x41 ≤ c.val ∧ c.val ≤ 0x46 then some (c.val - 0x41 + 10)
  else none

/-- Function `getu4`: the rune of a backslash-u escape with four hexadecimal digits at the
start of `s`; `none` stands for the result `-1`. -/
def getu4 (s : List Byte) : Option Nat :=
  match s with
  | b0 :: b1 :: h1 :: h2 :: h3 :: h4 :: _ =>
    if b0.val ≠ 0x5C ∨ b1.val ≠ 0x75 then none
    else
      match hexValue h1, hexValue h2, hexValue h3, hexValue h4 with
      | some d1, some d2, some d3, some d4 => some (((d1 * 16 + d2) * 16 + d3) * 16 + d4)
      | _, _, _, _ => none
  | _ => none

/-- Function `utf16.DecodeRune` on the results of two `getu4` calls: the rune of a valid
surrogate pair, U+FFFD otherwise. -/
def utf16DecodeRune (r1 : Nat) (r2 : Option Nat) : Nat :=
  match r2 with
  | some r2 =>
    if 0xD800 ≤ r1 ∧ r1 < 0xDC00 ∧ 0xDC00 ≤ r2 ∧ r2 < 0xE000 then
      (r1 - 0xD800) * 1024 + (r2 - 0xDC00) + 0x10000
    else 0xFFFD
  | none => 0xFFFD

/-- One round of the main loop of `unquoteBytes` with `s` the input from position `r` on: the
bytes appended to the output and the number of input bytes consumed. An escape yields the
bytes it denotes, any other rune is decoded and encoded again (which turns invalid UTF-8 into
U+FFFD); `none` is the result `ok = false`. -/
def unquoteStep (s : List Byte) : Option (List Byte × Nat) :=
  match s with
  | [] => none
  | c :: tl =>
    if c.val = 0x5C then
      match tl with
      | [] => none
      | e :: _ =>
        if e.val = 0x22 ∨ e.val = 0x5C ∨ e.val = 0x2F ∨ e.val = 0x27 then some ([e], 2)
        else if e.val = 0x62 then some ([0x08], 2)
        else if e.val = 0x66 then some ([0x0C], 2)
        else if e.val = 0x6E then some ([0x0A], 2)
        else if e.val = 0x72 then some ([0x0D], 2)
        else if e.val = 0x74 then some ([0x09], 2)
        else if e.val = 0x75 then
          match getu4 s with
          | none => none
          | some rr =>
            if 0xD800 ≤ rr ∧ rr < 0xE000 then
              let dec := utf16DecodeRune rr (getu4 (s.drop 6))
              if dec ≠ 0xFFFD then some (EncodeRune dec, 12)
              else some (EncodeRune 0xFFFD, 6)
            else some (EncodeRune rr, 6)
        else none
    else if c.val = 0x22 ∨ c.val < 0x20 then none
    else if c.val < 0x80 then some ([c], 1)
    else some (EncodeRune (DecodeRune s).1, (DecodeRune s).2)

/-- Main loop of `unquoteBytes` over the text between the quotes. The first argument counts
the bytes of the current round that are still to be passed (`r += n` in the library). The
library first copies the longest prefix that needs no change, which this loop leaves as it
is. -/
def unquoteLoop : Nat → List Byte → Option (List Byte)
  | _, [] => some []
  | k + 1, _ :: tl => unquoteLoop k tl
  | 0, c :: tl =>
    match unquoteStep (c :: tl) with
    | none => none
    | some (out, n) => (unquoteLoop (n - 1) tl).map (out ++ ·)

/-- Function `unquoteBytes`: the bytes denoted by a quoted JSON string literal. -/
def unquoteBytes (s : List Byte) : Option (List Byte) :=
  match s with
  | q :: rest =>
    if rest.length < 1 ∨ q.val ≠ 0x22 ∨ (rest.getLast?.map Fin.val) ≠ some 0x22 then none
    else unquoteLoop 0 rest.dropLast
  | [] => none

/-- What the decoder reads from validated text: the six punctuation marks and the literals
(strings with their quotes, numbers, `true`, `false`, `null`) cut out as `rescanLiteral`
does. -/
inductive Token
  | beginObject | endObject | beginArray | endArray | colon | comma
  | literal (item : List Byte)
  deriving DecidableEq, Repr

/-- Position of `tokens` in the text: between tokens, inside a string literal (after a
backslash when `esc`), or inside another literal. -/
inductive LexState
  | idle
  | inString (acc : List Byte) (esc : Bool)
  | inBare (acc : List Byte)

/-- One of the six punctuation bytes. -/
def isPunct (c : Byte) : Bool :=
  decide (c.val = 0x7B ∨ c.val = 0x7D ∨ c.val = 0x5B ∨ c.val = 0x5D ∨ c.val = 0x3A ∨ c.val = 0x2C)

/-- Token of a punctuation byte. -/
def punct (c : Byte) : List Token :=
  if c.val = 0x7B then [.beginObject]
  else if c.val = 0x7D then [.endObject]
  else if c.val = 0x5B then [.beginArray]
  else if c.val = 0x5D then [.endArray]
  else if c.val = 0x3A then [.colon]
  else if c.val = 0x2C then [.comma]
  else []

/-- Cut validated JSON text into tokens. A string literal runs to the first quote not preceded
by a backslash (`rescanLiteral`: a backslash skips the next byte); any other literal runs to
the next space or punctuation. -/
def tokens : LexState → List Byte → List Token
  | .idle, [] => []
  | .inString acc _, [] => [.literal acc]
  | .inBare acc, [] => [.literal acc]
  | .idle, c :: cs =>
    if isSpace c then tokens .idle cs
    else if isPunct c then punct c ++ tokens .idle cs
    else if c.val = 0x22 then tokens (.inString [c] false) cs
    else tokens (.inBare [c]) cs
  | .inString acc esc, c :: cs =>
    if esc then tokens (.inString (acc ++ [c]) false) cs
    else if c.val = 0x5C then tokens (.inString (acc ++ [c]) true) cs
    else if c.val = 0x22 then .literal (acc ++ [c]) :: tokens .idle cs
    else tokens (.inString (acc ++ [c]) false) cs
  | .inBare acc, c :: cs =>
    if isSpace c ∨ isPunct c then .literal acc :: (punct c ++ tokens .idle cs)
    else tokens (.inBare (acc ++ [c])) cs

/-- The four exported fields of `WSPacket`. -/
inductive WSField
  | Type_ | Data | PacketID | SessionID
  deriving DecidableEq, Repr

/-- JSON name of a field, from its struct tag. -/
def WSField.name : WSField → List Byte
  | .Type_ => str "type"
  | .Data => str "data"
  | .PacketID => str "packet_id"
  | .SessionID => str "session_id"

/-- The fields in declaration order. -/
def fields : List WSField := [.Type_, .Data, .PacketID, .SessionID]

/-- Upper-case form of an ASCII letter, other bytes unchanged. -/
def upper (b : Byte) : Nat := if 0x61 ≤ b.val ∧ b.val ≤ 0x7A then b.val - 0x20 else b.val

/-- Case-insensitive match of an ASCII field name `s` against a key `t` under Unicode simple
folding (`equalFoldRight` of `encoding/json`): besides the two cases of a letter, U+017F matches
the letter s and U+212A the letter k. -/
def equalFold : List Byte → List Byte → Bool
  | [], t => t.isEmpty
  | _ :: _, [] => false
  | sb :: s, tb :: t =>
    if tb.val < 0x80 then
      if sb = tb then equalFold s t
      else if 0x41 ≤ upper sb ∧ upper sb ≤ 0x5A then
        if upper sb = upper tb then equalFold s t else false
      else false
    else
      let tr := (DecodeRune (tb :: t)).1
      if (upper sb = 0x53 ∧ tr = 0x17F) ∨ (upper sb = 0x4B ∧ tr = 0x212A) then
        match (DecodeRune (tb :: t)).2, t with
        | 2, _ :: t2 => equalFold s t2
        | 3, _ :: _ :: t3 => equalFold s t3
        | _, _ => false
      else false

/-- Field selected by an object key in `decodeState.object`: an exact match of the name first,
then the first field matching under case folding. -/
def fieldOf (key : List Byte) : Option WSField :=
  match fields.find? (fun f => f.name = key) with
  | some f => some f
  | none => fields.find? (fun f => equalFold f.name key)

/-- The part of `decodeState` that the decoding of a `WSPacket` changes: the struct being
filled and whether `saveError` has recorded an `UnmarshalTypeError`. -/
structure decodeState where
  v : WSPacket
  savedError : Bool
  deriving DecidableEq, Repr

/-- Assignment `v.SetString(s)` on the selected field. -/
def setField (v : WSPacket) (f : WSField) (s : List Byte) : WSPacket :=
  match f with
  | .Type_ => { v with Type_ := s }
  | .Data => { v with Data := s }
  | .PacketID => { v with PacketID := s }
  | .SessionID => { v with SessionID := s }

/-- Method `literalStore` for a field of kind string: `null` leaves the field alone, a string
literal is unquoted and stored, `true`, `false` and numbers record a type error. -/
def literalStore (item : List Byte) (f : WSField) (d : decodeState) : Option decodeState :=
  match item with
  | [] => some { d with savedError := true }
  | c :: _ =>
    if c.val = 0x6E then some d
    else if c.val = 0x74 ∨ c.val = 0x66 then some { d with savedError := true }
    else if c.val = 0x22 then
      match unquoteBytes item with
      | some s => some { d with v := setField d.v f s }
      | none => none
    else some { d with savedError := true }

/-- Where `decodeState.object` stands: before a key, before the colon, before the value of the
selected field (`none` for an unknown key), inside a composite value being skipped, after a
value, or past the closing brace. -/
inductive Mode
  | key | colon (f : Option WSField) | value (f : Option WSField) | skip (depth : Nat) | next
  | done
  deriving DecidableEq, Repr

/-- Method `decodeState.object` for a struct target, over the tokens after the opening brace.
An array or object as the value of a known field records a type error and is skipped, the value
of an unknown key is skipped. `none` is a state the library reaches only by its phase panic,
which validated text excludes. -/
def object : Mode → decodeState → List Token → Option decodeState
  | .done, d, _ => some d
  | _, _, [] => none
  | .key, d, tok :: rest =>
    match tok with
    | .endObject => object .done d rest
    | .literal item =>
      match unquoteBytes item with
      | some key => object (.colon (fieldOf key)) d rest
      | none => none
    | _ => none
  | .colon f, d, tok :: rest =>
    match tok with
    | .colon => object (.value f) d rest
    | _ => none
  | .value f, d, tok :: rest =>
    match tok with
    | .literal item =>
      match f with
      | some fld =>
        match literalStore item fld d with
        | some d1 => object .next d1 rest
        | none => none
      | none => object .next d rest
    | .beginObject | .beginArray =>
      object (.skip 0) { d with savedError := d.savedError || f.isSome } rest
    | _ => none
  | .skip depth, d, tok :: rest =>
    match tok with
    | .beginObject | .beginArray => object (.skip (depth + 1)) d rest
    | .endObject | .endArray =>
      match depth with
      | 0 => object .next d rest
      | k + 1 => object (.skip k) d rest
    | _ => object (.skip depth) d rest
  | .next, d, tok :: rest =>
    match tok with
    | .comma => object .key d rest
    | .endObject => object .done d rest
    | _ => none

/-- Call `json.Unmarshal(data, &v)` for a `WSPacket`: `none` when the library returns an error
(a `SyntaxError` from `checkValid`, or an `UnmarshalTypeError`), otherwise the struct after
decoding. A top-level `null` decodes without change; any other top-level value that is not an
object is a type error. -/
def Unmarshal (data : List Byte) (v : WSPacket) : Option WSPacket :=
  if checkValid data then
    match tokens .idle data with
    | .beginObject :: toks =>
      match object .key ⟨v, false⟩ toks with
      | some d => if d.savedError then none else some d.v
      | none => none
    | .literal item :: _ => if item.head?.map Fin.val = some 0x6E then some v else none
    | _ => none
  else none

/-! ## The connection (`github.com/gorilla/websocket`)

Only the write side is state; what `ReadMessage` returns is an input of `Listen`. -/

/-- A websocket message. -/
abbrev Frame := List Byte

/-- Write side of a `*websocket.Conn`: `writeErr` is the error every write returns once the
connection has failed (closed, or a write deadline exceeded), `wire` the frames handed to the
network so far. -/
structure Conn where
  writeErr : Option String
  wire : List Frame
  deriving DecidableEq, Repr

/-- Method `Conn.WriteMessage(websocket.TextMessage, data)`: the connection afterwards and the
returned error, `none` for `nil`. -/
def Conn.WriteMessage (conn : Conn) (data : Frame) : Conn × Option String :=
  match conn.writeErr with
  | some e => (conn, some e)
  | none => ({ conn with wire := conn.wire ++ [data] }, none)

/-! ## `Client` (`cws.go`) -/

/-- What a closure stored in `sendCallback` or `recvCallback` does when it runs, in order:
it calls the caller-supplied function with `arg`, prints with `log.Println`, writes a frame with
`c.conn.WriteMessage` (under `sendLock`, after `SetWriteDeadline`), or ends in a panic that
nothing recovers. -/
inductive Effect
  | call (arg : WSPacket)
  | log (operands : List String)
  | write (data : Frame)
  | panic (v : String)
  deriving DecidableEq, Repr

/-- Type `func(req WSPacket)` of the values of both maps. -/
abbrev Callback := WSPacket → List Effect

/-- Struct `Client` (lines 13-21). `Done` is `true` once the channel is closed. -/
structure Client where
  id : List Byte
  conn : Conn
  sendCallback : List Byte → Option Callback
  recvCallback : List Byte → Option Callback
  Done : Bool

/-- Go statement `m[k] = v`. -/
def mapSet {α : Type} (m : List Byte → Option α) (k : List Byte) (v : α) : List Byte → Option α :=
  fun x => if x = k then some v else m x

/-- Go statement `delete(m, k)`. -/
def mapDelete {α : Type} (m : List Byte → Option α) (k : List Byte) : List Byte → Option α :=
  fun x => if x = k then none else m x

/-- Function `NewClient` (lines 32-46); `id` is the string of the fresh UUID. -/
def NewClient (conn : Conn) (id : List Byte) : Client :=
  { id := id, conn := conn, sendCallback := fun _ => none, recvCallback := fun _ => none,
    Done := false }

/-- Closure `wrapperCallback` of `Send` (lines 56-66): stamp the reply with the request's
`PacketID` and `SessionID`, call `callback`, and recover from its panic with a log line. -/
def wrapperCallback (request : WSPacket) (callback : WSPacket → Except String Unit) : Callback :=
  fun resp =>
    let resp := { resp with PacketID := request.PacketID }
    let resp := { resp with SessionID := request.SessionID }
    match callback resp with
    | .ok _ => [.call resp]
    | .error err => [.call resp, .log ["Recovered from err in client callback ", err]]

/-- Method `Client.Send` (lines 48-76). `newV4` is the string of the UUID drawn on line 49,
`callback = none` is a `nil` callback. The method has no result: the error of `WriteMessage` is
dropped on line 74. -/
def Client.Send (c : Client) (request : WSPacket)
    (callback : Option (WSPacket → Except String Unit)) (newV4 : List Byte) : Client :=
  let request := { request with PacketID := newV4 }
  match Marshal request with
  | .error _ => c
  | .ok data =>
    let c1 :=
      match callback with
      | some cb =>
        { c with sendCallback := mapSet c.sendCallback request.PacketID (wrapperCallback request cb) }
      | none => c
    { c1 with conn := (c1.conn.WriteMessage data).1 }

/-- Closure installed by `Receive` (lines 79-95) around the handler `f`: call `f`, stamp its
response with the request's `PacketID` and `SessionID`, return without writing when the
stamped response equals `EmptyPacket`, otherwise marshal it and write the frame. Nothing
recovers a panic of `f`. -/
def responder (f : WSPacket → Except String WSPacket) : Callback :=
  fun request =>
    match f request with
    | .error v => [.call request, .panic v]
    | .ok resp =>
      let resp := { resp with PacketID := request.PacketID }
      let resp := { resp with SessionID := request.SessionID }
      if resp = EmptyPacket then [.call request]
      else
        match Marshal resp with
        | .error err => [.call request, .log ["[!] json marshal error:", err], .write []]
        | .ok respText => [.call request, .write respText]

/-- Method `Client.Receive` (lines 78-96). -/
def Client.Receive (c : Client) (id : List Byte) (f : WSPacket → Except String WSPacket) :
    Client :=
  { c with recvCallback := mapSet c.recvCallback id (responder f) }

/-- The map a dispatched closure was taken from. -/
inductive Registry
  | sendCallback | recvCallback
  deriving DecidableEq, Repr

/-- What `Listen` itself does, in order: the two log lines, `close(c.Done)` (or the panic of
closing a closed channel), and `go callback(wspacket)` with the map and key the closure came
from, its argument and what the started goroutine does. -/
inductive Event
  | logRead (err : String)
  | logDecode (rawMsg : Frame)
  | closeDone
  | closePanic
  | go (src : Registry) (key : List Byte) (arg : WSPacket) (ran : List Effect)
  deriving DecidableEq, Repr

/-- Lines 138-148 of `Listen`: route a decoded packet. -/
def Client.dispatch (c : Client) (wspacket : WSPacket) : Client × List Event :=
  match c.sendCallback wspacket.PacketID with
  | some callback =>
    ({ c with sendCallback := mapDelete c.sendCallback wspacket.PacketID },
      [.go .sendCallback wspacket.PacketID wspacket (callback wspacket)])
  | none =>
    match c.recvCallback wspacket.Type_ with
    | some callback => (c, [.go .recvCallback wspacket.Type_ wspacket (callback wspacket)])
    | none => (c, [])

/-- State of a `Listen` call: the client, what the loop has done, and whether the method has
returned (`false`: it is blocked in `ReadMessage`). -/
structure Listening where
  client : Client
  trace : List Event
  returned : Bool

/-- Method `Client.Listen` (lines 121-150) over the results of its successive `ReadMessage`
calls, `.error` being a failed read (the read deadline of line 123 included). -/
def Client.Listen (c : Client) : List (Except String Frame) → Listening
  | [] => ⟨c, [], false⟩
  | .error err :: _ =>
    if c.Done then ⟨c, [.logRead err, .closePanic], true⟩
    else ⟨{ c with Done := true }, [.logRead err, .closeDone], true⟩
  | .ok rawMsg :: rest =>
    match Unmarshal rawMsg ⟨[], [], [], []⟩ with
    | none =>
      let r := c.Listen rest
      { r with trace := .logDecode rawMsg :: r.trace }
    | some wspacket =>
      let r := (c.dispatch wspacket).1.Listen rest
      { r with trace := (c.dispatch wspacket).2 ++ r.trace }

/-- Packets with which goroutine effects called caller-supplied code. -/
def calls : List Effect → List WSPacket
  | [] => []
  | .call arg :: es => arg :: calls es
  | _ :: es => calls es

/-- Frames that goroutine effects passed to `WriteMessage`. -/
def writes : List Effect → List Frame
  | [] => []
  | .write data :: es => data :: writes es
  | _ :: es => writes es

/-- Whether goroutine effects end in a panic that nothing recovered. -/
def panics : List Effect → Bool
  | [] => false
  | .panic _ :: _ => true
  | _ :: es => panics es

/-- Whether an event brings the program down: a goroutine that panics without recovering, or
`Listen` closing a closed channel. -/
def Event.fatal : Event → Bool
  | .go _ _ _ ran => panics ran
  | .closePanic => true
  | _ => false

/-- What the program gets to do of a `Listen` trace when every started goroutine has finished
before the next read: the Go runtime exits at the first panic that is not recovered. -/
def program : List Event → List Event
  | [] => []
  | e :: es => if e.fatal then [e] else e :: program es

/-- Whether an event is the dispatch of the reply callback stored under `key`. -/
def Event.isReply (key : List Byte) : Event → Bool
  | .go .sendCallback k _ _ => decide (k = key)
  | _ => false

/-- Packets with which the reply closure stored under `key` called the callback it wraps; for
`SyncSend` these are the values sent on its channel `res`. -/
def sentOn (key : List Byte) : List Event → List WSPacket
  | [] => []
  | .go .sendCallback k _ ran :: es => if k = key then calls ran ++ sentOn key es else sentOn key es
  | _ :: es => sentOn key es

/-- Method `Client.SyncSend` (lines 98-105): `Send` with a callback that sends its argument on
the channel `res`, then the receive `<-res`. `reads` are the results of the reads that the
running `Listen` performs after the send; `none` means the caller is still blocked. -/
def Client.SyncSend (c : Client) (request : WSPacket) (newV4 : List Byte)
    (reads : List (Except String Frame)) : Option WSPacket :=
  let c1 := c.Send request (some fun _ => .ok ()) newV4
  (sentOn newV4 (program (c1.Listen reads).trace)).head?

/-- Method `Client.Heartbeat` (lines 107-119) over the ticks of its timer, `ticks` holding
the UUID that the `Send` of each tick draws: at a tick it returns when `Done` is closed and
otherwise sends a `heartbeat` packet without callback. The result is the client afterwards
and whether the method has returned. -/
def Client.Heartbeat (c : Client) : List (List Byte) → Client × Bool
  | [] => (c, false)
  | newV4 :: ticks =>
    if c.Done then (c, true)
    else (c.Send ⟨str "heartbeat", [], [], []⟩ none newV4).Heartbeat ticks

/-! ## `PacketClient` (`packet.go`) -/

/-- Struct `PacketClient`. -/
structure PacketClient where
  conn : Conn
  deriving DecidableEq, Repr

/-- Method `PacketClient.Send` (lines 24-32): the client afterwards and the returned error,
`none` for `nil`. The error of `WriteMessage` is dropped on line 30. -/
def PacketClient.Send (c : PacketClient) (packet : Packet) : PacketClient × Option String :=
  match MarshalPacket packet with
  | .error err => (c, some err)
  | .ok data => ({ c with conn := (c.conn.WriteMessage data).1 }, none)

/-! ## Notions used in the proofs -/

/-- A well-formed two-byte UTF-8 sequence (U+0080 to U+07FF). -/
def Seq2 (b b1 : Byte) : Prop :=
  0xC2 ≤ b.val ∧ b.val ≤ 0xDF ∧ 0x80 ≤ b1.val ∧ b1.val ≤ 0xBF

/-- A well-formed three-byte UTF-8 sequence: no overlong form, no surrogate. -/
def Seq3 (b b1 b2 : Byte) : Prop :=
  0xE0 ≤ b.val ∧ b.val ≤ 0xEF ∧ 0x80 ≤ b1.val ∧ b1.val ≤ 0xBF
    ∧ (b.val = 0xE0 → 0xA0 ≤ b1.val) ∧ (b.val = 0xED → b1.val ≤ 0x9F)
    ∧ 0x80 ≤ b2.val ∧ b2.val ≤ 0xBF

/-- A well-formed four-byte UTF-8 sequence: no overlong form, at most U+10FFFF. -/
def Seq4 (b b1 b2 b3 : Byte) : Prop :=
  0xF0 ≤ b.val ∧ b.val ≤ 0xF4 ∧ 0x80 ≤ b1.val ∧ b1.val ≤ 0xBF
    ∧ (b.val = 0xF0 → 0x90 ≤ b1.val) ∧ (b.val = 0xF4 → b1.val ≤ 0x8F)
    ∧ 0x80 ≤ b2.val ∧ b2.val ≤ 0xBF ∧ 0x80 ≤ b3.val ∧ b3.val ≤ 0xBF

/-- Rune of a three-byte sequence. -/
def runeOf3 (b b1 b2 : Byte) : Nat := b.val % 16 * 4096 + b1.val % 64 * 64 + b2.val % 64

/-- One round of `appendStringLoop` on valid UTF-8: the bytes read and the bytes written. -/
inductive Chunk : List Byte → List Byte → Prop
  | safe (b : Byte) : b.val < 0x80 → htmlSafeSet b.val = true → Chunk [b] [b]
  | esc (b : Byte) : b.val < 0x80 → htmlSafeSet b.val = false → Chunk [b] (appendEscape b)
  | two (b b1 : Byte) : Seq2 b b1 → Chunk [b, b1] [b, b1]
  | three (b b1 b2 : Byte) : Seq3 b b1 b2 →
      ¬ (runeOf3 b b1 b2 = 0x2028 ∨ runeOf3 b b1 b2 = 0x2029) → Chunk [b, b1, b2] [b, b1, b2]
  | sep (b b1 b2 : Byte) : Seq3 b b1 b2 →
      (runeOf3 b b1 b2 = 0x2028 ∨ runeOf3 b b1 b2 = 0x2029) →
      Chunk [b, b1, b2] [0x5C, 0x75, 0x32, 0x30, 0x32, hexDigit (runeOf3 b b1 b2 % 16)]
  | four (b b1 b2 b3 : Byte) : Seq4 b b1 b2 b3 → Chunk [b, b1, b2, b3] [b, b1, b2, b3]

/-- Relation between a valid UTF-8 string and its quoted form, round by round. -/
inductive Quoted : List Byte → List Byte → Prop
  | nil : Quoted [] []
  | cons {o e s q : List Byte} : Chunk o e → Quoted s q → Quoted (o ++ s) (e ++ q)

/-- Run of the scanner over a piece of input: the state afterwards, `none` once a state
function has returned `scanError`. -/
def scanAll (s : scanner) : List Byte → Option scanner
  | [] => some s
  | c :: cs =>
    match s.run c with
    | (_, .scanError) => none
    | (s1, _) => scanAll s1 cs

/-- State of the scanner inside a string literal. -/
def inStr (ps : List ParseState) : scanner := ⟨.stateInString, false, ps, false⟩

/-- Fixed text of a marshalled `WSPacket` up to the opening quote of `type`. -/
def seg0 : List Byte := 0x7B :: (str "\"type\":" ++ [0x22])

/-- Fixed text between the values of `type` and `data`. -/
def seg1 : List Byte := 0x22 :: (str ",\"data\":" ++ [0x22])

/-- Fixed text between the values of `data` and `packet_id`. -/
def seg2 : List Byte := 0x22 :: (str ",\"packet_id\":" ++ [0x22])

/-- Fixed text between the values of `packet_id` and `session_id`. -/
def seg3 : List Byte := 0x22 :: (str ",\"session_id\":" ++ [0x22])

/-- Fixed text after the value of `session_id`. -/
def seg4 : List Byte := [0x22, 0x7D]

/-! ## Lemmas on `Listen` -/

theorem Listen_ok_none (c : Client) (rawMsg : Frame) (rest : List (Except String Frame))
    (h : Unmarshal rawMsg ⟨[], [], [], []⟩ = none) :
    c.Listen (.ok rawMsg :: rest)
      = ⟨(c.Listen rest).client, .logDecode rawMsg :: (c.Listen rest).trace,
          (c.Listen rest).returned⟩ := by
  simp [Client.Listen, h]

/-- An iteration of `Listen` on a frame that decodes to `p`. -/
theorem Listen_ok_some (c : Client) (rawMsg : Frame) (rest : List (Except String Frame))
    (p : WSPacket) (h : Unmarshal rawMsg ⟨[], [], [], []⟩ = some p) :
    c.Listen (.ok rawMsg :: rest)
      = ⟨((c.dispatch p).1.Listen rest).client,
          (c.dispatch p).2 ++ ((c.dispatch p).1.Listen rest).trace,
          ((c.dispatch p).1.Listen rest).returned⟩ := by
  simp [Client.Listen, h]

theorem dispatch_Done (c : Client) (p : WSPacket) : (c.dispatch p).1.Done = c.Done := by
  unfold Client.dispatch
  split
  · rfl
  · split <;> rfl

theorem dispatch_recvCallback (c : Client) (p : WSPacket) :
    (c.dispatch p).1.recvCallback = c.recvCallback := by
  unfold Client.dispatch
  split
  · rfl
  · split <;> rfl

theorem dispatch_conn (c : Client) (p : WSPacket) : (c.dispatch p).1.conn = c.conn := by
  unfold Client.dispatch
  split
  · rfl
  · split <;> rfl

/-- Splitting a run of `Listen` after a prefix of successful reads. -/
theorem Listen_append (pre : List Frame) (rest : List (Except String Frame)) (c : Client) :
    c.Listen (pre.map .ok ++ rest)
      = ⟨((c.Listen (pre.map .ok)).client.Listen rest).client,
          (c.Listen (pre.map .ok)).trace ++ ((c.Listen (pre.map .ok)).client.Listen rest).trace,
          ((c.Listen (pre.map .ok)).client.Listen rest).returned⟩ := by
  induction pre generalizing c with
  | nil => simp [Client.Listen]
  | cons raw pre ih =>
    cases h : Unmarshal raw ⟨[], [], [], []⟩ with
    | none =>
      simp only [List.map_cons, List.cons_append]
      rw [Listen_ok_none _ _ _ h, Listen_ok_none _ _ _ h, ih]
      simp
    | some p =>
      simp only [List.map_cons, List.cons_append]
      rw [Listen_ok_some _ _ _ _ h, Listen_ok_some _ _ _ _ h, ih]
      simp

/-- While reads succeed, `Listen` does not return and `Done` is not touched. -/
theorem Listen_live (pre : List Frame) (c : Client) :
    (c.Listen (pre.map .ok)).returned = false ∧ (c.Listen (pre.map .ok)).client.Done = c.Done
      ∧ Event.closeDone ∉ (c.Listen (pre.map .ok)).trace
      ∧ Event.closePanic ∉ (c.Listen (pre.map .ok)).trace := by
  induction pre generalizing c with
  | nil => simp [Client.Listen]
  | cons raw pre ih =>
    cases h : Unmarshal raw ⟨[], [], [], []⟩ with
    | none =>
      simp only [List.map_cons]
      rw [Listen_ok_none _ _ _ h]
      have := ih c
      simp [this]
    | some p =>
      simp only [List.map_cons]
      rw [Listen_ok_some _ _ _ _ h]
      have := ih (c.dispatch p).1
      simp only [dispatch_Done] at this
      refine ⟨this.1, this.2.1, ?_, ?_⟩
      · simp only [List.mem_append, not_or]
        refine ⟨?_, this.2.2.1⟩
        unfold Client.dispatch
        split
        · simp
        · split <;> simp
      · simp only [List.mem_append, not_or]
        refine ⟨?_, this.2.2.2⟩
        unfold Client.dispatch
        split
        · simp
        · split <;> simp

theorem dispatch_sendCallback_none (c : Client) (p : WSPacket) (X : List Byte)
    (h : c.sendCallback X = none) : (c.dispatch p).1.sendCallback X = none := by
  unfold Client.dispatch
  split
  · simp [mapDelete, h]
  · split <;> exact h

theorem dispatch_isReply_none (c : Client) (p : WSPacket) (X : List Byte)
    (h : c.sendCallback X = none) : (c.dispatch p).2.filter (Event.isReply X) = [] := by
  unfold Client.dispatch
  split
  · rename_i cb hcb
    have : p.PacketID ≠ X := by
      intro hx; rw [hx, h] at hcb; cases hcb
    simp [Event.isReply, this]
  · split <;> simp [Event.isReply]

/-- No reply dispatch for a key that has no entry. -/
theorem Listen_isReply_none (reads : List (Except String Frame)) (c : Client) (X : List Byte)
    (h : c.sendCallback X = none) : (c.Listen reads).trace.filter (Event.isReply X) = [] := by
  induction reads generalizing c with
  | nil => simp [Client.Listen]
  | cons r rest ih =>
    cases r with
    | error err =>
      simp only [Client.Listen]
      split <;> simp [Event.isReply]
    | ok raw =>
      cases hd : Unmarshal raw ⟨[], [], [], []⟩ with
      | none =>
        rw [Listen_ok_none _ _ _ hd]
        simp [Event.isReply, ih c h]
      | some p =>
        rw [Listen_ok_some _ _ _ _ hd]
        simp [ih _ (dispatch_sendCallback_none c p X h), dispatch_isReply_none c p X h]

/-- After routing `p`, `sendCallback` has no entry for `p.PacketID`. -/
theorem dispatch_after (c : Client) (p : WSPacket) :
    (c.dispatch p).1.sendCallback p.PacketID = none := by
  unfold Client.dispatch
  split
  · simp [mapDelete]
  · rename_i h
    split <;> exact h

theorem dispatch_isReply_length (c : Client) (p : WSPacket) (X : List Byte) :
    ((c.dispatch p).2.filter (Event.isReply X)).length ≤ 1 := by
  unfold Client.dispatch
  split
  · simp only [List.filter]
    split <;> simp
  · split <;> simp [Event.isReply]

/-- At most one reply dispatch per key in a trace of `Listen`. -/
theorem Listen_isReply_le (reads : List (Except String Frame)) (c : Client) (X : List Byte) :
    ((c.Listen reads).trace.filter (Event.isReply X)).length ≤ 1 := by
  induction reads generalizing c with
  | nil => simp [Client.Listen]
  | cons r rest ih =>
    cases r with
    | error err =>
      simp only [Client.Listen]
      split <;> simp [Event.isReply]
    | ok raw =>
      cases hd : Unmarshal raw ⟨[], [], [], []⟩ with
      | none =>
        rw [Listen_ok_none _ _ _ hd]
        simpa [Event.isReply] using ih c
      | some p =>
        rw [Listen_ok_some _ _ _ _ hd]
        simp only [List.filter_append, List.length_append]
        by_cases hx : p.PacketID = X
        · have h0 := Listen_isReply_none rest _ X (hx ▸ dispatch_after c p)
          rw [h0]
          simpa using dispatch_isReply_length c p X
        · have h1 : (c.dispatch p).2.filter (Event.isReply X) = [] := by
            unfold Client.dispatch
            split
            · simp [Event.isReply, hx]
            · split <;> simp [Event.isReply]
          rw [h1]
          simpa using ih _

theorem sentOn_append (X : List Byte) (a b : List Event) :
    sentOn X (a ++ b) = sentOn X a ++ sentOn X b := by
  induction a with
  | nil => rfl
  | cons e a ih =>
    cases e with
    | go src k arg ran =>
      cases src with
      | sendCallback =>
        simp only [List.cons_append, sentOn]
        split <;> simp [ih]
      | recvCallback => simp [sentOn, ih]
    | _ => simp [sentOn, ih]

/-- The program performs a prefix of the trace. -/
theorem program_prefix (t : List Event) : ∃ rest, t = program t ++ rest := by
  induction t with
  | nil => exact ⟨[], rfl⟩
  | cons e t ih =>
    obtain ⟨rest, h⟩ := ih
    unfold program
    split
    · exact ⟨t, rfl⟩
    · exact ⟨rest, by simpa using h⟩

theorem calls_wrapperCallback (rq : WSPacket) (cb : WSPacket → Except String Unit)
    (resp : WSPacket) :
    calls (wrapperCallback rq cb resp) = [⟨resp.Type_, resp.Data, rq.PacketID, rq.SessionID⟩] := by
  unfold wrapperCallback
  simp only
  split <;> simp [calls]

theorem sentOn_of_filter (X : List Byte) (t : List Event)
    (h : t.filter (Event.isReply X) = []) : sentOn X t = [] := by
  induction t with
  | nil => rfl
  | cons e t ih =>
    cases e with
    | go src k arg ran =>
      cases src with
      | sendCallback =>
        by_cases hk : k = X
        · simp [List.filter, Event.isReply, hk] at h
        · simp only [List.filter, Event.isReply, hk, decide_False] at h
          simp [sentOn, hk, ih h]
      | recvCallback =>
        simp only [List.filter, Event.isReply] at h
        simp [sentOn, ih h]
    | _ =>
      simp only [List.filter, Event.isReply] at h
      simp [sentOn, ih h]

/-- What reaches the channel of a pending `Send` callback. -/
theorem sentOn_Listen (rq : WSPacket) (cb : WSPacket → Except String Unit) (X : List Byte)
    (reads : List (Except String Frame)) (c : Client)
    (h : ∀ w, c.sendCallback X = some w → w = wrapperCallback rq cb) :
    sentOn X (c.Listen reads).trace = [] ∨
      ∃ raw p, Except.ok raw ∈ reads ∧ Unmarshal raw ⟨[], [], [], []⟩ = some p ∧ p.PacketID = X
        ∧ sentOn X (c.Listen reads).trace = [⟨p.Type_, p.Data, rq.PacketID, rq.SessionID⟩] := by
  induction reads generalizing c with
  | nil => left; simp [Client.Listen, sentOn]
  | cons r rest ih =>
    cases r with
    | error err =>
      left
      simp only [Client.Listen]
      split <;> simp [sentOn]
    | ok raw =>
      cases hd : Unmarshal raw ⟨[], [], [], []⟩ with
      | none =>
        rw [Listen_ok_none _ _ _ hd]
        rcases ih c h with h0 | ⟨raw1, p, hm, hp, hx, hs⟩
        · left; simpa [sentOn] using h0
        · right
          exact ⟨raw1, p, List.mem_cons_of_mem _ hm, hp, hx, by simpa [sentOn] using hs⟩
      | some p =>
        rw [Listen_ok_some _ _ _ _ hd]
        simp only [sentOn_append]
        by_cases hx : p.PacketID = X
        · have hnone : (c.dispatch p).1.sendCallback X = none := hx ▸ dispatch_after c p
          have hrest : sentOn X ((c.dispatch p).1.Listen rest).trace = [] :=
            sentOn_of_filter X _ (Listen_isReply_none rest _ X hnone)
          rw [hrest]
          cases hw : c.sendCallback X with
          | none =>
            left
            have := sentOn_of_filter X _ (dispatch_isReply_none c p X hw)
            simp [this]
          | some w =>
            right
            refine ⟨raw, p, List.mem_cons_self _ _, hd, hx, ?_⟩
            have hw2 := h w hw
            subst hw2
            unfold Client.dispatch
            rw [hx, hw]
            simp [sentOn, calls_wrapperCallback]
        · have h1 : sentOn X (c.dispatch p).2 = [] := by
            apply sentOn_of_filter
            unfold Client.dispatch
            split
            · simp [Event.isReply, hx]
            · split <;> simp [Event.isReply]
          have h2 : ∀ w, (c.dispatch p).1.sendCallback X = some w → w = wrapperCallback rq cb := by
            intro w hw
            apply h w
            revert hw
            unfold Client.dispatch
            split
            · simp only [mapDelete]
              split
              · intro hw; cases hw
              · exact id
            · split <;> exact id
          rw [h1]
          rcases ih _ h2 with h0 | ⟨raw1, p1, hm, hp, hx1, hs⟩
          · left; simpa using h0
          · right
            exact ⟨raw1, p1, List.mem_cons_of_mem _ hm, hp, hx1, by simpa using hs⟩

theorem Send_sendCallback (c : Client) (request : WSPacket)
    (callback : WSPacket → Except String Unit) (X : List Byte) :
    (c.Send request (some callback) X).sendCallback X
      = some (wrapperCallback { request with PacketID := X } callback) := by
  simp [Client.Send, Marshal, mapSet]

/-! ## Lemmas on the codec -/

theorem DecodeRune_two (b b1 : Byte) (tl : List Byte) (h : Seq2 b b1) :
    DecodeRune (b :: b1 :: tl) = (b.val % 32 * 64 + b1.val % 64, 2) := by
  obtain ⟨h1, h2, h3, h4⟩ := h
  have hl : leadInfo b.val = some (2, 0x80, 0xBF) := by
    unfold leadInfo; rw [if_pos ⟨h1, h2⟩]
  rw [DecodeRune]
  rw [if_neg (by omega), hl]
  simp only [List.length_cons]
  rw [if_neg (by omega), if_neg (by omega), if_pos (by omega)]

theorem leadInfo_three (b : Byte) (h : 0xE0 ≤ b.val ∧ b.val ≤ 0xEF) :
    ∃ lo hi, leadInfo b.val = some (3, lo, hi) ∧ 0x80 ≤ lo ∧ hi ≤ 0xBF
      ∧ (lo = if b.val = 0xE0 then 0xA0 else 0x80) ∧ (hi = if b.val = 0xED then 0x9F else 0xBF) := by
  unfold leadInfo
  split_ifs <;> first | omega | exact ⟨_, _, rfl, by omega, by omega, rfl, rfl⟩

/-- Decoding a well-formed three-byte sequence. -/
theorem DecodeRune_three (b b1 b2 : Byte) (tl : List Byte) (h : Seq3 b b1 b2) :
    DecodeRune (b :: b1 :: b2 :: tl)
      = (b.val % 16 * 4096 + b1.val % 64 * 64 + b2.val % 64, 3) := by
  obtain ⟨h1, h2, h3, h4, h5, h6, h7, h8⟩ := h
  obtain ⟨lo, hi, hl, _, _, hlo, hhi⟩ := leadInfo_three b ⟨h1, h2⟩
  rw [DecodeRune]
  rw [if_neg (by omega), hl]
  simp only [List.length_cons]
  have hr : ¬ (b1.val < lo ∨ hi < b1.val) := by
    rw [hlo, hhi]; split <;> split <;> omega
  rw [if_neg (by omega), if_neg hr, if_neg (by omega), if_neg (by omega), if_pos (by omega)]

theorem leadInfo_four (b : Byte) (h : 0xF0 ≤ b.val ∧ b.val ≤ 0xF4) :
    ∃ lo hi, leadInfo b.val = some (4, lo, hi) ∧ 0x80 ≤ lo ∧ hi ≤ 0xBF
      ∧ (lo = if b.val = 0xF0 then 0x90 else 0x80) ∧ (hi = if b.val = 0xF4 then 0x8F else 0xBF) := by
  unfold leadInfo
  split_ifs <;> first | omega | exact ⟨_, _, rfl, by omega, by omega, rfl, rfl⟩

/-- Decoding a well-formed four-byte sequence. -/
theorem DecodeRune_four (b b1 b2 b3 : Byte) (tl : List Byte) (h : Seq4 b b1 b2 b3) :
    DecodeRune (b :: b1 :: b2 :: b3 :: tl)
      = (b.val % 8 * 262144 + b1.val % 64 * 4096 + b2.val % 64 * 64 + b3.val % 64, 4) := by
  obtain ⟨h1, h2, h3, h4, h5, h6, h7, h8, h9, h10⟩ := h
  obtain ⟨lo, hi, hl, _, _, hlo, hhi⟩ := leadInfo_four b ⟨h1, h2⟩
  rw [DecodeRune]
  rw [if_neg (by omega), hl]
  simp only [List.length_cons]
  have hr : ¬ (b1.val < lo ∨ hi < b1.val) := by
    rw [hlo, hhi]; split <;> split <;> omega
  rw [if_neg (by omega), if_neg hr, if_neg (by omega), if_neg (by omega), if_neg (by omega),
    if_neg (by omega)]

theorem leadInfo_none (b : Byte) (h : ¬ (0xC2 ≤ b.val ∧ b.val ≤ 0xF4)) :
    leadInfo b.val = none := by
  unfold leadInfo
  split_ifs <;> first | rfl | omega

/-- The outcomes of `DecodeRune` at a byte that is not ASCII. -/
theorem DecodeRune_cases (b : Byte) (tl : List Byte) (hb : ¬ b.val < 0x80) :
    DecodeRune (b :: tl) = (RuneError, 1)
      ∨ (∃ b1 t2, tl = b1 :: t2 ∧ Seq2 b b1)
      ∨ (∃ b1 b2 t3, tl = b1 :: b2 :: t3 ∧ Seq3 b b1 b2)
      ∨ (∃ b1 b2 b3 t4, tl = b1 :: b2 :: b3 :: t4 ∧ Seq4 b b1 b2 b3) := by
  by_cases hr : 0xC2 ≤ b.val ∧ b.val ≤ 0xF4
  · by_cases h2 : b.val ≤ 0xDF
    · -- two bytes
      rcases tl with _ | ⟨b1, t2⟩
      · left
        rw [DecodeRune, if_neg hb]
        have hl : leadInfo b.val = some (2, 0x80, 0xBF) := by
          unfold leadInfo; rw [if_pos ⟨hr.1, h2⟩]
        rw [hl]; rfl
      · by_cases h1 : 0x80 ≤ b1.val ∧ b1.val ≤ 0xBF
        · right; left
          exact ⟨b1, t2, rfl, hr.1, h2, h1.1, h1.2⟩
        · left
          rw [DecodeRune, if_neg hb]
          have hl : leadInfo b.val = some (2, 0x80, 0xBF) := by
            unfold leadInfo; rw [if_pos ⟨hr.1, h2⟩]
          rw [hl]
          simp only [List.length_cons]
          rw [if_neg (by omega), if_pos (by omega)]
    · by_cases h3 : b.val ≤ 0xEF
      · -- three bytes
        obtain ⟨lo, hi, hl, _, _, hlo, hhi⟩ := leadInfo_three b ⟨by omega, h3⟩
        rcases tl with _ | ⟨b1, _ | ⟨b2, t3⟩⟩
        · left; rw [DecodeRune, if_neg hb, hl]; rfl
        · left; rw [DecodeRune, if_neg hb, hl]; rfl
        · by_cases hs : Seq3 b b1 b2
          · right; right; left; exact ⟨b1, b2, t3, rfl, hs⟩
          · left
            rw [DecodeRune, if_neg hb, hl]
            simp only [List.length_cons]
            rw [if_neg (by omega)]
            by_cases h1 : b1.val < lo ∨ hi < b1.val
            · rw [if_pos h1]
            · rw [if_neg h1, if_neg (by omega), if_pos]
              by_contra hc
              apply hs
              rw [hlo, hhi] at h1
              refine ⟨by omega, h3, ?_, ?_, ?_, ?_, by omega, by omega⟩ <;>
                (split at h1 <;> split at h1 <;> omega)
      · -- four bytes
        obtain ⟨lo, hi, hl, _, _, hlo, hhi⟩ := leadInfo_four b ⟨by omega, hr.2⟩
        rcases tl with _ | ⟨b1, _ | ⟨b2, _ | ⟨b3, t4⟩⟩⟩
        · left; rw [DecodeRune, if_neg hb, hl]; rfl
        · left; rw [DecodeRune, if_neg hb, hl]; rfl
        · left; rw [DecodeRune, if_neg hb, hl]; rfl
        · by_cases hs : Seq4 b b1 b2 b3
          · right; right; right; exact ⟨b1, b2, b3, t4, rfl, hs⟩
          · left
            rw [DecodeRune, if_neg hb, hl]
            simp only [List.length_cons]
            rw [if_neg (by omega)]
            by_cases h1 : b1.val < lo ∨ hi < b1.val
            · rw [if_pos h1]
            · rw [if_neg h1, if_neg (by omega)]
              by_cases h2 : b2.val < 0x80 ∨ 0xBF < b2.val
              · rw [if_pos h2]
              · rw [if_neg h2, if_neg (by omega), if_pos]
                by_contra hc
                apply hs
                rw [hlo, hhi] at h1
                refine ⟨by omega, hr.2, ?_, ?_, ?_, ?_, by omega, by omega, by omega, by omega⟩ <;>
                  (split at h1 <;> split at h1 <;> omega)
  · left
    rw [DecodeRune, if_neg hb, leadInfo_none b hr]

theorem byte_val (n : Nat) : (byte n).val = n % 256 := rfl

theorem byte_eq (n : Nat) (b : Byte) (h : n = b.val) : byte n = b := by
  apply Fin.ext
  rw [byte_val, h]
  exact Nat.mod_eq_of_lt b.isLt

theorem EncodeRune_ascii (b : Byte) (h : b.val < 0x80) : EncodeRune b.val = [b] := by
  unfold EncodeRune
  rw [if_pos (by omega), byte_eq _ b rfl]

/-- Encoding the rune of a two-byte sequence gives the sequence back. -/
theorem EncodeRune_two (b b1 : Byte) (h : Seq2 b b1) :
    EncodeRune (b.val % 32 * 64 + b1.val % 64) = [b, b1] := by
  obtain ⟨h1, h2, h3, h4⟩ := h
  unfold EncodeRune
  rw [if_neg (by omega), if_pos (by omega), byte_eq _ b (by omega), byte_eq _ b1 (by omega)]

/-- Encoding the rune of a three-byte sequence gives the sequence back. -/
theorem EncodeRune_three (b b1 b2 : Byte) (h : Seq3 b b1 b2) :
    EncodeRune (b.val % 16 * 4096 + b1.val % 64 * 64 + b2.val % 64) = [b, b1, b2] := by
  obtain ⟨h1, h2, h3, h4, h5, h6, h7, h8⟩ := h
  unfold EncodeRune
  have hne : ¬ b.val % 16 * 4096 + b1.val % 64 * 64 + b2.val % 64 ≤ 0x7FF := by
    by_cases h0 : b.val = 0xE0
    · have := h5 h0; omega
    · omega
  have hs : ¬ (0x10FFFF < b.val % 16 * 4096 + b1.val % 64 * 64 + b2.val % 64
      ∨ (0xD800 ≤ b.val % 16 * 4096 + b1.val % 64 * 64 + b2.val % 64
        ∧ b.val % 16 * 4096 + b1.val % 64 * 64 + b2.val % 64 ≤ 0xDFFF)) := by
    by_cases h0 : b.val = 0xED
    · have := h6 h0; omega
    · omega
  rw [if_neg (by omega), if_neg hne]
  simp only
  rw [if_neg hs, if_pos (by omega), byte_eq _ b (by omega), byte_eq _ b1 (by omega),
    byte_eq _ b2 (by omega)]

/-- Encoding the rune of a four-byte sequence gives the sequence back. -/
theorem EncodeRune_four (b b1 b2 b3 : Byte) (h : Seq4 b b1 b2 b3) :
    EncodeRune (b.val % 8 * 262144 + b1.val % 64 * 4096 + b2.val % 64 * 64 + b3.val % 64)
      = [b, b1, b2, b3] := by
  obtain ⟨h1, h2, h3, h4, h5, h6, h7, h8, h9, h10⟩ := h
  unfold EncodeRune
  have hlo : 0x10000 ≤ b.val % 8 * 262144 + b1.val % 64 * 4096 + b2.val % 64 * 64
      + b3.val % 64 := by
    by_cases h0 : b.val = 0xF0
    · have := h5 h0; omega
    · omega
  have hhi : b.val % 8 * 262144 + b1.val % 64 * 4096 + b2.val % 64 * 64 + b3.val % 64
      ≤ 0x10FFFF := by
    by_cases h0 : b.val = 0xF4
    · have := h6 h0; omega
    · omega
  have hs : ¬ (0x10FFFF < b.val % 8 * 262144 + b1.val % 64 * 4096 + b2.val % 64 * 64
        + b3.val % 64
      ∨ (0xD800 ≤ b.val % 8 * 262144 + b1.val % 64 * 4096 + b2.val % 64 * 64 + b3.val % 64
        ∧ b.val % 8 * 262144 + b1.val % 64 * 4096 + b2.val % 64 * 64 + b3.val % 64
          ≤ 0xDFFF)) := by omega
  rw [if_neg (by omega), if_neg (by omega)]
  simp only
  rw [if_neg hs, if_neg (by omega), byte_eq _ b (by omega), byte_eq _ b1 (by omega),
    byte_eq _ b2 (by omega), byte_eq _ b3 (by omega)]

theorem Valid_cons (b : Byte) (tl : List Byte) :
    Valid (b :: tl) = if b.val < 0x80 then Valid tl
      else
        match (DecodeRune (b :: tl)).2, tl with
        | 2, _ :: t2 => Valid t2
        | 3, _ :: _ :: t3 => Valid t3
        | 4, _ :: _ :: _ :: t4 => Valid t4
        | _, _ => false := by
  rw [Valid.eq_def]

theorem appendStringLoop_cons (b : Byte) (tl : List Byte) :
    appendStringLoop (b :: tl) =
    if b.val < 0x80 then
      if htmlSafeSet b.val then b :: appendStringLoop tl
      else appendEscape b ++ appendStringLoop tl
    else
      if (DecodeRune (b :: tl)).1 = RuneError ∧ (DecodeRune (b :: tl)).2 = 1 then
        [0x5C, 0x75, 0x66, 0x66, 0x66, 0x64] ++ appendStringLoop tl
      else
        match (DecodeRune (b :: tl)).2, tl with
        | 2, b1 :: t2 => b :: b1 :: appendStringLoop t2
        | 3, b1 :: b2 :: t3 =>
          if (DecodeRune (b :: tl)).1 = 0x2028 ∨ (DecodeRune (b :: tl)).1 = 0x2029 then
            [0x5C, 0x75, 0x32, 0x30, 0x32, hexDigit ((DecodeRune (b :: tl)).1 % 16)] ++ appendStringLoop t3
          else b :: b1 :: b2 :: appendStringLoop t3
        | 4, b1 :: b2 :: b3 :: t4 => b :: b1 :: b2 :: b3 :: appendStringLoop t4
        | _, _ => [] := by
  rw [appendStringLoop.eq_def]

/-- On valid UTF-8, `appendStringLoop` proceeds by the rounds of `Chunk`. -/
theorem quoted_of_valid (n : Nat) : ∀ s : List Byte, s.length ≤ n → Valid s = true →
    Quoted s (appendStringLoop s) := by
  induction n with
  | zero =>
    intro s hn _
    have : s = [] := List.length_eq_zero.mp (by omega)
    subst this
    exact Quoted.nil
  | succ n ih =>
    intro s hn hv
    cases s with
    | nil => exact Quoted.nil
    | cons b tl =>
      simp only [List.length_cons] at hn
      by_cases hb : b.val < 0x80
      · rw [Valid_cons, if_pos hb] at hv
        rw [appendStringLoop_cons, if_pos hb]
        have ht := ih tl (by omega) hv
        by_cases hsafe : htmlSafeSet b.val = true
        · rw [if_pos hsafe]
          exact Quoted.cons (Chunk.safe b hb hsafe) ht
        · rw [if_neg hsafe]
          exact Quoted.cons (Chunk.esc b hb (by simpa using hsafe)) ht
      · rcases DecodeRune_cases b tl hb with hE | ⟨b1, t2, rfl, hs⟩ | ⟨b1, b2, t3, rfl, hs⟩
          | ⟨b1, b2, b3, t4, rfl, hs⟩
        · rw [Valid_cons, if_neg hb, hE] at hv
          simp at hv
        · have hd := DecodeRune_two b b1 t2 hs
          rw [Valid_cons, if_neg hb, hd] at hv
          simp only at hv
          rw [appendStringLoop_cons, if_neg hb, hd]
          simp only [List.length_cons] at hn
          have ht := ih t2 (by omega) hv
          simp only [OfNat.ofNat_ne_one, and_false, ↓reduceIte]
          exact Quoted.cons (Chunk.two b b1 hs) ht
        · have hd := DecodeRune_three b b1 b2 t3 hs
          rw [Valid_cons, if_neg hb, hd] at hv
          simp only at hv
          rw [appendStringLoop_cons, if_neg hb, hd]
          simp only [List.length_cons] at hn
          have ht := ih t3 (by omega) hv
          simp only [OfNat.ofNat_ne_one, and_false, ↓reduceIte]
          by_cases hsep : runeOf3 b b1 b2 = 0x2028 ∨ runeOf3 b b1 b2 = 0x2029
          · rw [if_pos (by simpa only [runeOf3] using hsep)]
            exact Quoted.cons (Chunk.sep b b1 b2 hs hsep) ht
          · rw [if_neg (by simpa only [runeOf3] using hsep)]
            exact Quoted.cons (Chunk.three b b1 b2 hs hsep) ht
        · have hd := DecodeRune_four b b1 b2 b3 t4 hs
          rw [Valid_cons, if_neg hb, hd] at hv
          simp only at hv
          rw [appendStringLoop_cons, if_neg hb, hd]
          simp only [List.length_cons] at hn
          have ht := ih t4 (by omega) hv
          simp only [OfNat.ofNat_ne_one, and_false, ↓reduceIte]
          exact Quoted.cons (Chunk.four b b1 b2 b3 hs) ht

/-- The loop of `checkValid` in terms of `scanAll`. -/
theorem checkValidLoop_eq (data : List Byte) (s : scanner) :
    checkValidLoop s data
      = match scanAll s data with
        | none => false
        | some s1 => decide ((s1.eof).2 ≠ .scanError) := by
  induction data generalizing s with
  | nil => rfl
  | cons c cs ih =>
    rw [checkValidLoop, scanAll]
    split <;> simp_all

theorem scanAll_append (a b : List Byte) (s : scanner) :
    scanAll s (a ++ b) = (scanAll s a).bind fun s1 => scanAll s1 b := by
  induction a generalizing s with
  | nil => rfl
  | cons c cs ih =>
    simp only [List.cons_append, scanAll]
    split
    · rfl
    · exact ih _

theorem scanAll_step (s s1 : scanner) (op : Op) (c : Byte) (cs : List Byte)
    (h : s.run c = (s1, op)) (hop : op ≠ .scanError) : scanAll s (c :: cs) = scanAll s1 cs := by
  rw [scanAll, h]
  cases op <;> first | rfl | exact absurd rfl hop

theorem scan_plain (ps : List ParseState) (c : Byte) (cs : List Byte)
    (h : c.val ≠ 0x22 ∧ c.val ≠ 0x5C ∧ 0x20 ≤ c.val) :
    scanAll (inStr ps) (c :: cs) = scanAll (inStr ps) cs := by
  obtain ⟨h1, h2, h3⟩ := h
  apply scanAll_step _ _ .scanContinue _ _ _ (by decide)
  simp [inStr, scanner.run, stateInString, h1, h2, Nat.not_lt.mpr h3]

theorem scan_backslash (ps : List ParseState) (cs : List Byte) :
    scanAll (inStr ps) (0x5C :: cs) = scanAll ⟨.stateInStringEsc, false, ps, false⟩ cs :=
  scanAll_step _ _ .scanContinue _ _ rfl (by decide)

theorem scan_escape (ps : List ParseState) (c : Byte) (cs : List Byte)
    (h : c.val = 0x62 ∨ c.val = 0x66 ∨ c.val = 0x6E ∨ c.val = 0x72 ∨ c.val = 0x74
      ∨ c.val = 0x5C ∨ c.val = 0x2F ∨ c.val = 0x22) :
    scanAll (inStr ps) (0x5C :: c :: cs) = scanAll (inStr ps) cs := by
  rw [scan_backslash]
  apply scanAll_step _ _ .scanContinue _ _ _ (by decide)
  simp [inStr, scanner.run, stateInStringEsc, h]

theorem scan_hex (ps : List ParseState) (st next : Step) (c : Byte) (cs : List Byte)
    (hst : (⟨st, false, ps, false⟩ : scanner).run c = stateHex next ⟨st, false, ps, false⟩ c)
    (x : isHex c = true) :
    scanAll ⟨st, false, ps, false⟩ (c :: cs) = scanAll ⟨next, false, ps, false⟩ cs := by
  apply scanAll_step _ _ .scanContinue _ _ _ (by decide)
  rw [hst]
  simp [stateHex, x]

theorem scan_u (ps : List ParseState) (h1 h2 h3 h4 : Byte) (cs : List Byte)
    (x1 : isHex h1 = true) (x2 : isHex h2 = true) (x3 : isHex h3 = true)
    (x4 : isHex h4 = true) :
    scanAll (inStr ps) (0x5C :: 0x75 :: h1 :: h2 :: h3 :: h4 :: cs) = scanAll (inStr ps) cs := by
  rw [scan_backslash,
    scanAll_step ⟨.stateInStringEsc, false, ps, false⟩ ⟨.stateInStringEscU, false, ps, false⟩
      .scanContinue 0x75 _ rfl (by decide),
    scan_hex ps .stateInStringEscU .stateInStringEscU1 h1 _ rfl x1,
    scan_hex ps .stateInStringEscU1 .stateInStringEscU12 h2 _ rfl x2,
    scan_hex ps .stateInStringEscU12 .stateInStringEscU123 h3 _ rfl x3,
    scan_hex ps .stateInStringEscU123 .stateInString h4 _ rfl x4]
  rfl

theorem hexDigit_val (n : Nat) (h : n < 16) :
    (hexDigit n).val = if n < 10 then 0x30 + n else 0x57 + n := by
  unfold hexDigit
  rw [byte_val]
  split <;> omega

theorem isHex_hexDigit (n : Nat) (h : n < 16) : isHex (hexDigit n) = true := by
  unfold isHex
  rw [hexDigit_val n h]
  simp only [decide_eq_true_eq]
  split <;> omega

theorem hexValue_hexDigit (n : Nat) (h : n < 16) : hexValue (hexDigit n) = some n := by
  unfold hexValue
  rw [hexDigit_val n h]
  by_cases h10 : n < 10
  · rw [if_pos h10, if_pos (by omega)]; congr 1; omega
  · rw [if_neg h10, if_neg (by omega), if_pos (by omega)]; congr 1; omega

theorem htmlSafeSet_true (b : Byte) (h : htmlSafeSet b.val = true) :
    0x20 ≤ b.val ∧ b.val ≠ 0x22 ∧ b.val ≠ 0x5C := by
  unfold htmlSafeSet at h
  simp only [decide_eq_true_eq] at h
  omega

/-- The scanner stays inside the string literal over the bytes of one round. -/
theorem scan_chunk {o e : List Byte} (h : Chunk o e) (ps : List ParseState) (cs : List Byte) :
    scanAll (inStr ps) (e ++ cs) = scanAll (inStr ps) cs := by
  cases h with
  | safe b hb hs =>
    have := htmlSafeSet_true b hs
    exact scan_plain ps b cs ⟨this.2.1, this.2.2, this.1⟩
  | esc b hb hs =>
    unfold appendEscape
    split_ifs with c1 c2 c3 c4 c5 c6
    · exact scan_escape ps b cs (by omega)
    · exact scan_escape ps 0x62 cs (by decide)
    · exact scan_escape ps 0x66 cs (by decide)
    · exact scan_escape ps 0x6E cs (by decide)
    · exact scan_escape ps 0x72 cs (by decide)
    · exact scan_escape ps 0x74 cs (by decide)
    · exact scan_u ps 0x30 0x30 _ _ cs (by decide) (by decide)
        (isHex_hexDigit _ (by omega)) (isHex_hexDigit _ (by omega))
  | two b b1 hs =>
    obtain ⟨h1, h2, h3, h4⟩ := hs
    simp only [List.cons_append, List.nil_append]
    rw [scan_plain ps b _ (by omega), scan_plain ps b1 _ (by omega)]
  | three b b1 b2 hs _ =>
    obtain ⟨h1, h2, h3, h4, h5, h6, h7, h8⟩ := hs
    simp only [List.cons_append, List.nil_append]
    rw [scan_plain ps b _ (by omega), scan_plain ps b1 _ (by omega),
      scan_plain ps b2 _ (by omega)]
  | sep b b1 b2 hs hr =>
    exact scan_u ps 0x32 0x30 0x32 _ cs (by decide) (by decide) (by decide)
      (isHex_hexDigit _ (Nat.mod_lt _ (by decide)))
  | four b b1 b2 b3 hs =>
    obtain ⟨h1, h2, h3, h4, h5, h6, h7, h8, h9, h10⟩ := hs
    simp only [List.cons_append, List.nil_append]
    rw [scan_plain ps b _ (by omega), scan_plain ps b1 _ (by omega),
      scan_plain ps b2 _ (by omega), scan_plain ps b3 _ (by omega)]

/-- The scanner stays inside the string literal over a quoted string. -/
theorem scan_quoted {s q : List Byte} (h : Quoted s q) (ps : List ParseState) (cs : List Byte) :
    scanAll (inStr ps) (q ++ cs) = scanAll (inStr ps) cs := by
  induction h with
  | nil => rfl
  | cons hc _ ih => rw [List.append_assoc, scan_chunk hc, ih]

theorem tokens_plain (acc : List Byte) (c : Byte) (cs : List Byte)
    (h : c.val ≠ 0x5C ∧ c.val ≠ 0x22) :
    tokens (.inString acc false) (c :: cs) = tokens (.inString (acc ++ [c]) false) cs := by
  rw [tokens]
  simp [h.1, h.2]

theorem tokens_escape (acc : List Byte) (c x : Byte) (cs : List Byte) (hc : c.val = 0x5C) :
    tokens (.inString acc false) (c :: x :: cs) = tokens (.inString (acc ++ [c, x]) false) cs := by
  rw [tokens]
  simp only [hc, Bool.false_eq_true, ↓reduceIte]
  rw [tokens]
  simp

theorem hexDigit_plain (n : Nat) (h : n < 16) :
    (hexDigit n).val ≠ 0x5C ∧ (hexDigit n).val ≠ 0x22 := by
  rw [hexDigit_val n h]
  split <;> omega

theorem tokens_u (acc : List Byte) (c u h1 h2 h3 h4 : Byte) (cs : List Byte) (hc : c.val = 0x5C)
    (x1 : h1.val ≠ 0x5C ∧ h1.val ≠ 0x22) (x2 : h2.val ≠ 0x5C ∧ h2.val ≠ 0x22)
    (x3 : h3.val ≠ 0x5C ∧ h3.val ≠ 0x22) (x4 : h4.val ≠ 0x5C ∧ h4.val ≠ 0x22) :
    tokens (.inString acc false) (c :: u :: h1 :: h2 :: h3 :: h4 :: cs)
      = tokens (.inString (acc ++ [c, u, h1, h2, h3, h4]) false) cs := by
  rw [tokens_escape acc c u _ hc, tokens_plain _ h1 _ x1, tokens_plain _ h2 _ x2,
    tokens_plain _ h3 _ x3, tokens_plain _ h4 _ x4]
  simp

/-- The bytes of one round do not end the string literal being cut out. -/
theorem tokens_chunk {o e : List Byte} (h : Chunk o e) (acc cs : List Byte) :
    tokens (.inString acc false) (e ++ cs) = tokens (.inString (acc ++ e) false) cs := by
  cases h with
  | safe b hb hs =>
    have := htmlSafeSet_true b hs
    exact tokens_plain acc b cs ⟨this.2.2, this.2.1⟩
  | esc b hb hs =>
    unfold appendEscape
    split_ifs with c1 c2 c3 c4 c5 c6
    · exact tokens_escape acc 0x5C b cs rfl
    · exact tokens_escape acc 0x5C 0x62 cs rfl
    · exact tokens_escape acc 0x5C 0x66 cs rfl
    · exact tokens_escape acc 0x5C 0x6E cs rfl
    · exact tokens_escape acc 0x5C 0x72 cs rfl
    · exact tokens_escape acc 0x5C 0x74 cs rfl
    · exact tokens_u acc 0x5C 0x75 0x30 0x30 _ _ cs rfl (by decide) (by decide)
        (hexDigit_plain _ (by omega)) (hexDigit_plain _ (by omega))
  | two b b1 hs =>
    obtain ⟨h1, h2, h3, h4⟩ := hs
    simp only [List.cons_append, List.nil_append]
    rw [tokens_plain _ b _ (by omega), tokens_plain _ b1 _ (by omega)]
    simp
  | three b b1 b2 hs _ =>
    obtain ⟨h1, h2, h3, h4, h5, h6, h7, h8⟩ := hs
    simp only [List.cons_append, List.nil_append]
    rw [tokens_plain _ b _ (by omega), tokens_plain _ b1 _ (by omega),
      tokens_plain _ b2 _ (by omega)]
    simp
  | sep b b1 b2 hs hr =>
    exact tokens_u acc 0x5C 0x75 0x32 0x30 0x32 _ cs rfl (by decide) (by decide) (by decide)
      (hexDigit_plain _ (Nat.mod_lt _ (by decide)))
  | four b b1 b2 b3 hs =>
    obtain ⟨h1, h2, h3, h4, h5, h6, h7, h8, h9, h10⟩ := hs
    simp only [List.cons_append, List.nil_append]
    rw [tokens_plain _ b _ (by omega), tokens_plain _ b1 _ (by omega),
      tokens_plain _ b2 _ (by omega), tokens_plain _ b3 _ (by omega)]
    simp

/-- A quoted string does not end the string literal being cut out. -/
theorem tokens_quoted {s q : List Byte} (h : Quoted s q) (acc cs : List Byte) :
    tokens (.inString acc false) (q ++ cs) = tokens (.inString (acc ++ q) false) cs := by
  induction h generalizing acc with
  | nil => simp
  | cons hc _ ih => rw [List.append_assoc, tokens_chunk hc, ih, List.append_assoc]

theorem unquoteLoop_step (c : Byte) (tl out : List Byte) (n : Nat)
    (h : unquoteStep (c :: tl) = some (out, n)) :
    unquoteLoop 0 (c :: tl) = (unquoteLoop (n - 1) tl).map (out ++ ·) := by
  rw [unquoteLoop, h]

theorem unquote_plain (c : Byte) (cs : List Byte)
    (h : c.val ≠ 0x5C ∧ c.val ≠ 0x22 ∧ 0x20 ≤ c.val ∧ c.val < 0x80) :
    unquoteLoop 0 (c :: cs) = (unquoteLoop 0 cs).map ([c] ++ ·) := by
  obtain ⟨h1, h2, h3, h4⟩ := h
  have hstep : unquoteStep (c :: cs) = some ([c], 1) := by
    rw [unquoteStep.eq_def]
    simp only
    rw [if_neg h1, if_neg (by omega), if_pos h4]
  exact unquoteLoop_step c cs [c] 1 hstep

theorem unquote_same (c x : Byte) (cs : List Byte) (hc : c.val = 0x5C)
    (hx : x.val = 0x22 ∨ x.val = 0x5C) :
    unquoteLoop 0 (c :: x :: cs) = (unquoteLoop 0 cs).map ([x] ++ ·) := by
  rw [unquoteLoop_step c (x :: cs) [x] 2]
  · rfl
  · rw [unquoteStep, if_pos hc]
    simp only
    rw [if_pos (by omega)]

theorem unquote_letter (c x y : Byte) (cs : List Byte) (hc : c.val = 0x5C)
    (hx : x.val = 0x62 ∧ y = 0x08 ∨ x.val = 0x66 ∧ y = 0x0C ∨ x.val = 0x6E ∧ y = 0x0A
      ∨ x.val = 0x72 ∧ y = 0x0D ∨ x.val = 0x74 ∧ y = 0x09) :
    unquoteLoop 0 (c :: x :: cs) = (unquoteLoop 0 cs).map ([y] ++ ·) := by
  have hstep : unquoteStep (c :: x :: cs) = some ([y], 2) := by
    rw [unquoteStep, if_pos hc]
    rcases hx with ⟨h, rfl⟩ | ⟨h, rfl⟩ | ⟨h, rfl⟩ | ⟨h, rfl⟩ | ⟨h, rfl⟩ <;> simp [h]
  exact unquoteLoop_step c (x :: cs) [y] 2 hstep

theorem unquote_u (c u h1 h2 h3 h4 : Byte) (d1 d2 d3 d4 : Nat) (cs : List Byte)
    (hc : c.val = 0x5C) (hu : u.val = 0x75)
    (x1 : hexValue h1 = some d1) (x2 : hexValue h2 = some d2) (x3 : hexValue h3 = some d3)
    (x4 : hexValue h4 = some d4)
    (hr : ¬ (0xD800 ≤ ((d1 * 16 + d2) * 16 + d3) * 16 + d4
      ∧ ((d1 * 16 + d2) * 16 + d3) * 16 + d4 < 0xE000)) :
    unquoteLoop 0 (c :: u :: h1 :: h2 :: h3 :: h4 :: cs)
      = (unquoteLoop 0 cs).map (EncodeRune (((d1 * 16 + d2) * 16 + d3) * 16 + d4) ++ ·) := by
  have hg : getu4 (c :: u :: h1 :: h2 :: h3 :: h4 :: cs)
      = some (((d1 * 16 + d2) * 16 + d3) * 16 + d4) := by
    rw [getu4, if_neg (by omega), x1, x2, x3, x4]
  have hstep : unquoteStep (c :: u :: h1 :: h2 :: h3 :: h4 :: cs)
      = some (EncodeRune (((d1 * 16 + d2) * 16 + d3) * 16 + d4), 6) := by
    rw [unquoteStep, if_pos hc]
    simp only [hu, hg]
    simp only [Nat.reduceEqDiff, or_self, ↓reduceIte]
    rw [if_neg hr]
  exact unquoteLoop_step c _ _ 6 hstep

theorem unquote_raw (c : Byte) (tl : List Byte) (hc : ¬ c.val < 0x80) :
    unquoteLoop 0 (c :: tl)
      = (unquoteLoop ((DecodeRune (c :: tl)).2 - 1) tl).map
          (EncodeRune (DecodeRune (c :: tl)).1 ++ ·) := by
  apply unquoteLoop_step c tl
  rw [unquoteStep.eq_def]
  simp only
  rw [if_neg (by omega), if_neg (by omega), if_neg hc]

/-- Unquoting the bytes of one round gives back the bytes it was written from. -/
theorem unquote_chunk {o e : List Byte} (h : Chunk o e) (cs : List Byte) :
    unquoteLoop 0 (e ++ cs) = (unquoteLoop 0 cs).map (o ++ ·) := by
  cases h with
  | safe b hb hs =>
    have := htmlSafeSet_true b hs
    exact unquote_plain b cs ⟨this.2.2, this.2.1, this.1, hb⟩
  | esc b hb hs =>
    unfold appendEscape
    split_ifs with c1 c2 c3 c4 c5 c6
    · exact unquote_same 0x5C b cs rfl (by omega)
    · exact unquote_letter 0x5C 0x62 b cs rfl (Or.inl ⟨rfl, Fin.ext c2⟩)
    · exact unquote_letter 0x5C 0x66 b cs rfl (Or.inr (Or.inl ⟨rfl, Fin.ext c3⟩))
    · exact unquote_letter 0x5C 0x6E b cs rfl (Or.inr (Or.inr (Or.inl ⟨rfl, Fin.ext c4⟩)))
    · exact unquote_letter 0x5C 0x72 b cs rfl
        (Or.inr (Or.inr (Or.inr (Or.inl ⟨rfl, Fin.ext c5⟩))))
    · exact unquote_letter 0x5C 0x74 b cs rfl
        (Or.inr (Or.inr (Or.inr (Or.inr ⟨rfl, Fin.ext c6⟩))))
    · have hu := unquote_u 0x5C 0x75 0x30 0x30 (hexDigit (b.val / 16)) (hexDigit (b.val % 16))
        0 0 (b.val / 16) (b.val % 16) cs rfl rfl (by decide) (by decide)
        (hexValue_hexDigit _ (by omega)) (hexValue_hexDigit _ (by omega)) (by omega)
      have hv : ((0 * 16 + 0) * 16 + b.val / 16) * 16 + b.val % 16 = b.val := by omega
      rw [hv, EncodeRune_ascii b hb] at hu
      exact hu
  | two b b1 hs =>
    have hd := DecodeRune_two b b1 cs hs
    simp only [List.cons_append, List.nil_append]
    rw [unquote_raw b _ (by have := hs.1; omega), hd, EncodeRune_two b b1 hs]
    rfl
  | three b b1 b2 hs _ =>
    have hd := DecodeRune_three b b1 b2 cs hs
    simp only [List.cons_append, List.nil_append]
    rw [unquote_raw b _ (by have := hs.1; omega), hd, EncodeRune_three b b1 b2 hs]
    rfl
  | sep b b1 b2 hs hr =>
    have hu := unquote_u 0x5C 0x75 0x32 0x30 0x32 (hexDigit (runeOf3 b b1 b2 % 16))
      2 0 2 (runeOf3 b b1 b2 % 16) cs rfl rfl (by decide) (by decide) (by decide)
      (hexValue_hexDigit _ (Nat.mod_lt _ (by decide))) (by omega)
    have hv : ((2 * 16 + 0) * 16 + 2) * 16 + runeOf3 b b1 b2 % 16 = runeOf3 b b1 b2 := by omega
    rw [hv] at hu
    rw [show EncodeRune (runeOf3 b b1 b2) = [b, b1, b2] from EncodeRune_three b b1 b2 hs] at hu
    exact hu
  | four b b1 b2 b3 hs =>
    have hd := DecodeRune_four b b1 b2 b3 cs hs
    simp only [List.cons_append, List.nil_append]
    rw [unquote_raw b _ (by have := hs.1; omega), hd, EncodeRune_four b b1 b2 b3 hs]
    rfl

/-- Unquoting a quoted string gives back the string. -/
theorem unquote_quoted {s q : List Byte} (h : Quoted s q) : unquoteLoop 0 q = some s := by
  induction h with
  | nil => rfl
  | cons hc _ ih => rw [unquote_chunk hc, ih]; rfl

/-- The frame of a packet: fixed text around the four quoted fields. -/
theorem Marshal_eq (p : WSPacket) :
    Marshal p = .ok (seg0 ++ (appendStringLoop p.Type_ ++ (seg1 ++ (appendStringLoop p.Data
      ++ (seg2 ++ (appendStringLoop p.PacketID ++ (seg3 ++ (appendStringLoop p.SessionID
      ++ seg4)))))))) := by
  simp only [Marshal, appendString, seg0, seg1, seg2, seg3, seg4, List.cons_append,
    List.append_assoc, List.nil_append]

theorem scan_seg0 : scanAll scanner.reset seg0 = some (inStr [.parseObjectValue]) := by
  decide

theorem scan_seg1 :
    scanAll (inStr [.parseObjectValue]) seg1 = some (inStr [.parseObjectValue]) := by
  decide

theorem scan_seg2 :
    scanAll (inStr [.parseObjectValue]) seg2 = some (inStr [.parseObjectValue]) := by
  decide

theorem scan_seg3 :
    scanAll (inStr [.parseObjectValue]) seg3 = some (inStr [.parseObjectValue]) := by
  decide

theorem scan_seg4 :
    scanAll (inStr [.parseObjectValue]) seg4 = some ⟨.stateEndTop, true, [], false⟩ := by
  decide

/-- A marshalled frame is valid JSON. -/
theorem checkValid_frame {t qt d qd i qi s qs : List Byte} (ht : Quoted t qt) (hd : Quoted d qd)
    (hi : Quoted i qi) (hs : Quoted s qs) :
    checkValid (seg0 ++ (qt ++ (seg1 ++ (qd ++ (seg2 ++ (qi ++ (seg3 ++ (qs ++ seg4))))))))
      = true := by
  have h : scanAll scanner.reset
      (seg0 ++ (qt ++ (seg1 ++ (qd ++ (seg2 ++ (qi ++ (seg3 ++ (qs ++ seg4))))))))
      = some ⟨.stateEndTop, true, [], false⟩ := by
    rw [scanAll_append, scan_seg0, Option.some_bind, scan_quoted ht,
      scanAll_append, scan_seg1, Option.some_bind, scan_quoted hd,
      scanAll_append, scan_seg2, Option.some_bind, scan_quoted hi,
      scanAll_append, scan_seg3, Option.some_bind, scan_quoted hs, scan_seg4]
  rw [checkValid, checkValidLoop_eq, h]
  rfl

theorem tokens_seg0 (rest : List Byte) :
    tokens .idle (seg0 ++ rest)
      = .beginObject :: .literal (str "\"type\"") :: .colon
          :: tokens (.inString [0x22] false) rest := by
  rfl

theorem tokens_seg1 (acc rest : List Byte) :
    tokens (.inString acc false) (seg1 ++ rest)
      = .literal (acc ++ [0x22]) :: .comma :: .literal (str "\"data\"") :: .colon
          :: tokens (.inString [0x22] false) rest := by
  rfl

theorem tokens_seg2 (acc rest : List Byte) :
    tokens (.inString acc false) (seg2 ++ rest)
      = .literal (acc ++ [0x22]) :: .comma :: .literal (str "\"packet_id\"") :: .colon
          :: tokens (.inString [0x22] false) rest := by
  rfl

theorem tokens_seg3 (acc rest : List Byte) :
    tokens (.inString acc false) (seg3 ++ rest)
      = .literal (acc ++ [0x22]) :: .comma :: .literal (str "\"session_id\"") :: .colon
          :: tokens (.inString [0x22] false) rest := by
  rfl

theorem tokens_seg4 (acc : List Byte) :
    tokens (.inString acc false) seg4 = [.literal (acc ++ [0x22]), .endObject] := by
  rfl

/-- The tokens of a marshalled frame. -/
theorem tokens_frame {t qt d qd i qi s qs : List Byte} (ht : Quoted t qt) (hd : Quoted d qd)
    (hi : Quoted i qi) (hs : Quoted s qs) :
    tokens .idle (seg0 ++ (qt ++ (seg1 ++ (qd ++ (seg2 ++ (qi ++ (seg3 ++ (qs ++ seg4))))))))
      = [.beginObject,
          .literal (str "\"type\""), .colon, .literal ([0x22] ++ qt ++ [0x22]), .comma,
          .literal (str "\"data\""), .colon, .literal ([0x22] ++ qd ++ [0x22]), .comma,
          .literal (str "\"packet_id\""), .colon, .literal ([0x22] ++ qi ++ [0x22]), .comma,
          .literal (str "\"session_id\""), .colon, .literal ([0x22] ++ qs ++ [0x22]),
          .endObject] := by
  rw [tokens_seg0, tokens_quoted ht, tokens_seg1, tokens_quoted hd, tokens_seg2,
    tokens_quoted hi, tokens_seg3, tokens_quoted hs, tokens_seg4]

theorem unquoteBytes_quoted {s q : List Byte} (h : Quoted s q) :
    unquoteBytes ([0x22] ++ q ++ [0x22]) = some s := by
  simp only [List.singleton_append, List.cons_append, unquoteBytes]
  rw [if_neg]
  · rw [List.dropLast_concat]
    exact unquote_quoted h
  · simp
    decide

theorem literalStore_quoted {s q : List Byte} (h : Quoted s q) (f : WSField) (d : decodeState) :
    literalStore ([0x22] ++ q ++ [0x22]) f d = some { d with v := setField d.v f s } := by
  have hu := unquoteBytes_quoted h
  simp only [List.singleton_append, List.cons_append] at hu ⊢
  rw [literalStore]
  rw [if_neg (by decide), if_neg (by decide), if_pos (by decide), hu]

theorem object_member (k key item : List Byte) (f : WSField) (d d1 : decodeState)
    (rest : List Token) (hk : unquoteBytes k = some key) (hf : fieldOf key = some f)
    (hs : literalStore item f d = some d1) :
    object .key d (.literal k :: .colon :: .literal item :: rest) = object .next d1 rest := by
  simp only [object, hk, hf, hs]

theorem object_comma (d : decodeState) (rest : List Token) :
    object .next d (.comma :: rest) = object .key d rest := by
  simp only [object]

theorem object_end (d : decodeState) (rest : List Token) :
    object .next d (.endObject :: rest) = some d := by
  simp only [object]

/-- Decoding a marshalled frame. -/
theorem Unmarshal_frame {t qt d qd i qi s qs : List Byte} (ht : Quoted t qt) (hd : Quoted d qd)
    (hi : Quoted i qi) (hs : Quoted s qs) (v : WSPacket) :
    Unmarshal (seg0 ++ (qt ++ (seg1 ++ (qd ++ (seg2 ++ (qi ++ (seg3 ++ (qs ++ seg4)))))))) v
      = some ⟨t, d, i, s⟩ := by
  rw [Unmarshal, checkValid_frame ht hd hi hs, if_pos rfl, tokens_frame ht hd hi hs]
  simp only
  rw [object_member _ (str "type") _ .Type_ _ _ _ (by decide) (by decide)
      (literalStore_quoted ht _ _), object_comma,
    object_member _ (str "data") _ .Data _ _ _ (by decide) (by decide)
      (literalStore_quoted hd _ _), object_comma,
    object_member _ (str "packet_id") _ .PacketID _ _ _ (by decide) (by decide)
      (literalStore_quoted hi _ _), object_comma,
    object_member _ (str "session_id") _ .SessionID _ _ _ (by decide) (by decide)
      (literalStore_quoted hs _ _), object_end]
  rfl


/-- Round trip of the codec on valid UTF-8: the frame `Marshal` produces decodes to the packet
it was produced from, whatever the struct held before. -/
theorem Unmarshal_Marshal (p v : WSPacket) (hT : Valid p.Type_ = true)
    (hD : Valid p.Data = true) (hI : Valid p.PacketID = true) (hS : Valid p.SessionID = true) :
    ∃ data, Marshal p = .ok data ∧ Unmarshal data v = some p := by
  refine ⟨_, Marshal_eq p, ?_⟩
  exact Unmarshal_frame (quoted_of_valid _ _ (Nat.le_refl _) hT)
    (quoted_of_valid _ _ (Nat.le_refl _) hD) (quoted_of_valid _ _ (Nat.le_refl _) hI)
    (quoted_of_valid _ _ (Nat.le_refl _) hS) v

/-- Method `Send` does not touch `Done`. -/
theorem Send_Done (c : Client) (request : WSPacket)
    (callback : Option (WSPacket → Except String Unit)) (newV4 : List Byte) :
    (c.Send request callback newV4).Done = c.Done := by
  cases callback <;> simp [Client.Send, Marshal]

/-- Method `Heartbeat` does not touch `Done`. -/
theorem Heartbeat_Done (ticks : List (List Byte)) (c : Client) :
    (c.Heartbeat ticks).1.Done = c.Done := by
  induction ticks generalizing c with
  | nil => rfl
  | cons t ticks ih =>
    rw [Client.Heartbeat]
    split
    · rfl
    · rw [ih, Send_Done]

/-! ## The claims -/

/-- C1: at-most-once dispatch per correlation id. For every client state `c`, every key `X` and
every sequence of read results, the trace of `Listen` starts at most one goroutine for the
reply callback stored under `X`; once a packet whose `PacketID` is `X` has been routed, there
is no entry for `X` in `sendCallback`, and from that state on no reply callback is started for
`X`, whatever frames follow; and a callback that `Send` registered under `X` is called at most
once. -/
theorem C1_reply_dispatched_at_most_once (c : Client) (X : List Byte)
    (reads : List (Except String Frame)) :
    ((c.Listen reads).trace.filter (Event.isReply X)).length ≤ 1
      ∧ (∀ p : WSPacket, p.PacketID = X → (c.dispatch p).1.sendCallback X = none)
      ∧ (∀ p : WSPacket, p.PacketID = X →
          ((c.dispatch p).1.Listen reads).trace.filter (Event.isReply X) = [])
      ∧ (∀ (request : WSPacket) (callback : WSPacket → Except String Unit),
          (sentOn X ((c.Send request (some callback) X).Listen reads).trace).length ≤ 1) := by
  refine ⟨Listen_isReply_le reads c X, ?_, ?_, ?_⟩
  · intro p hp
    exact hp ▸ dispatch_after c p
  · intro p hp
    exact Listen_isReply_none reads _ X (hp ▸ dispatch_after c p)
  · intro request callback
    rcases sentOn_Listen { request with PacketID := X } callback X reads
      (c.Send request (some callback) X)
      (by intro w hw; rw [Send_sendCallback] at hw; exact (Option.some.inj hw).symm)
      with h0 | ⟨_, _, _, _, _, hs⟩
    · rw [h0]; exact Nat.zero_le 1
    · rw [hs]; exact Nat.le_refl 1

/-- C2: the reply seen by the caller carries the request's context. After
`Send request callback` with correlation id `X`, the closure stored under `X` calls `callback`
exactly once, with the packet whose `Type` and `Data` are those of the reply and whose
`PacketID` is `X` and `SessionID` the request's, whatever the reply carried in these two
fields; and every value `SyncSend` returns has `PacketID = X`, the request's `SessionID`, and
the `Type` and `Data` of a decoded frame whose `PacketID` is `X`. -/
theorem C2_reply_carries_request_context (c : Client) (request : WSPacket)
    (callback : WSPacket → Except String Unit) (X : List Byte) :
    (∃ w, (c.Send request (some callback) X).sendCallback X = some w
        ∧ ∀ resp : WSPacket, calls (w resp) = [⟨resp.Type_, resp.Data, X, request.SessionID⟩])
      ∧ ∀ (reads : List (Except String Frame)) (r : WSPacket),
          c.SyncSend request X reads = some r →
            r.PacketID = X ∧ r.SessionID = request.SessionID
              ∧ ∃ raw p, Except.ok raw ∈ reads ∧ Unmarshal raw ⟨[], [], [], []⟩ = some p
                  ∧ p.PacketID = X ∧ r.Type_ = p.Type_ ∧ r.Data = p.Data := by
  refine ⟨⟨_, Send_sendCallback c request callback X, fun resp => ?_⟩, ?_⟩
  · rw [calls_wrapperCallback]
  · intro reads r hr
    unfold Client.SyncSend at hr
    simp only at hr
    obtain ⟨rest, hrest⟩ := program_prefix
      ((c.Send request (some fun _ => Except.ok ()) X).Listen reads).trace
    have key := sentOn_Listen { request with PacketID := X } (fun _ => Except.ok ()) X reads
      (c.Send request (some fun _ => Except.ok ()) X)
      (by intro w hw; rw [Send_sendCallback] at hw; exact (Option.some.inj hw).symm)
    rw [hrest, sentOn_append] at key
    rcases key with h0 | ⟨raw, p, hm, hp, hx, hs⟩
    · rw [List.append_eq_nil] at h0
      rw [h0.1] at hr
      cases hr
    · generalize sentOn X (program
        ((c.Send request (some fun _ => Except.ok ()) X).Listen reads).trace) = A at hr hs
      cases A with
      | nil => cases hr
      | cons a A1 =>
        simp only [List.head?_cons, Option.some.injEq] at hr
        simp only [List.cons_append, List.cons.injEq] at hs
        rw [← hr, hs.1]
        exact ⟨rfl, rfl, raw, p, hm, hp, hx, rfl, rfl⟩


/-- Witness of C2: a `SyncSend` of the echo request under correlation id `u1` whose reply
arrives with session id `zz` returns the reply stamped with `u1` and the request's `s1`. -/
theorem C2_witness :
    (NewClient ⟨none, []⟩ (str "id")).SyncSend ⟨str "echo", str "hi", [], str "s1"⟩ (str "u1")
        [.ok (str "\x7b\"type\":\"echo-ack\",\"data\":\"hi\",\"packet_id\":\"u1\",\"session_id\":\"zz\"\x7d")]
      = some ⟨str "echo-ack", str "hi", str "u1", str "s1"⟩
    ∧ (⟨str "echo-ack", str "hi", str "u1", str "s1"⟩ : WSPacket).PacketID = str "u1"
    ∧ (⟨str "echo-ack", str "hi", str "u1", str "s1"⟩ : WSPacket).SessionID = str "s1" :=
  ⟨by decide,
    ((C2_reply_carries_request_context (NewClient ⟨none, []⟩ (str "id"))
      ⟨str "echo", str "hi", [], str "s1"⟩ (fun _ => .ok ()) (str "u1")).2
      [.ok (str "\x7b\"type\":\"echo-ack\",\"data\":\"hi\",\"packet_id\":\"u1\",\"session_id\":\"zz\"\x7d")]
      ⟨str "echo-ack", str "hi", str "u1", str "s1"⟩ (by decide)).1,
   ((C2_reply_carries_request_context (NewClient ⟨none, []⟩ (str "id"))
      ⟨str "echo", str "hi", [], str "s1"⟩ (fun _ => .ok ()) (str "u1")).2
      [.ok (str "\x7b\"type\":\"echo-ack\",\"data\":\"hi\",\"packet_id\":\"u1\",\"session_id\":\"zz\"\x7d")]
      ⟨str "echo-ack", str "hi", str "u1", str "s1"⟩ (by decide)).2.1⟩

/-- C3, the code at a failing input: a handler that returns `EmptyPacket` for a request with
correlation id `42` and session id `s1` makes the responder write one frame, the empty
response stamped with the request's two ids, because the comparison with `EmptyPacket` on
line 84 comes after the stamping on lines 81-82; nothing is written only when both ids of the
request are empty. -/
theorem C3_sentinel_compared_after_stamping :
    (fun _ => Except.ok EmptyPacket : WSPacket → Except String WSPacket)
        ⟨str "ping", [], str "42", str "s1"⟩ = .ok EmptyPacket
      ∧ writes (responder (fun _ => .ok EmptyPacket) ⟨str "ping", [], str "42", str "s1"⟩)
          = [str "\x7b\"type\":\"\",\"data\":\"\",\"packet_id\":\"42\",\"session_id\":\"s1\"\x7d"]
      ∧ writes (responder (fun _ => .ok EmptyPacket) ⟨str "ping", [], [], []⟩) = [] := by
  refine ⟨rfl, by decide, by decide⟩

/-- C4 as amended: for every request `r` and handler `f` whose response `resp` is not
`EmptyPacket` (the hypothesis of the claim, kept as it is), if one of `resp.Type`, `resp.Data`,
`r.PacketID`, `r.SessionID` is not empty and the four are valid UTF-8, the responder writes
exactly one frame, and the frame decodes to the packet with `Type` and `Data` of `resp` and
`PacketID` and `SessionID` of `r`. -/
theorem C4_response_written_with_request_ids (f : WSPacket → Except String WSPacket)
    (r resp : WSPacket) (hf : f r = .ok resp) (_hne : resp ≠ EmptyPacket)
    (hstamp : resp.Type_ ≠ [] ∨ resp.Data ≠ [] ∨ r.PacketID ≠ [] ∨ r.SessionID ≠ [])
    (hT : Valid resp.Type_ = true) (hD : Valid resp.Data = true)
    (hI : Valid r.PacketID = true) (hS : Valid r.SessionID = true) :
    ∃ data, writes (responder f r) = [data]
      ∧ Unmarshal data ⟨[], [], [], []⟩ = some ⟨resp.Type_, resp.Data, r.PacketID, r.SessionID⟩ := by
  obtain ⟨data, hm, hu⟩ :=
    Unmarshal_Marshal ⟨resp.Type_, resp.Data, r.PacketID, r.SessionID⟩ ⟨[], [], [], []⟩ hT hD hI hS
  refine ⟨data, ?_, hu⟩
  unfold responder
  simp only [hf]
  rw [if_neg, hm]
  · rfl
  · intro h
    simp only [EmptyPacket, WSPacket.mk.injEq] at h
    rcases hstamp with h1 | h1 | h1 | h1
    · exact h1 h.1
    · exact h1 h.2.1
    · exact h1 h.2.2.1
    · exact h1 h.2.2.2

/-- Witness of C4, the echo scenario: the handler's `echo-ack` response goes out carrying the
request's correlation id and session id `s1`. -/
theorem C4_witness :
    ∃ data,
      writes (responder (fun _ => .ok ⟨str "echo-ack", str "hi", [], []⟩)
        ⟨str "echo", str "hi", str "c0ffee", str "s1"⟩) = [data]
      ∧ Unmarshal data ⟨[], [], [], []⟩
          = some ⟨str "echo-ack", str "hi", str "c0ffee", str "s1"⟩ :=
  C4_response_written_with_request_ids (fun _ => .ok ⟨str "echo-ack", str "hi", [], []⟩)
    ⟨str "echo", str "hi", str "c0ffee", str "s1"⟩ ⟨str "echo-ack", str "hi", [], []⟩ rfl
    (by decide) (by decide) (by decide) (by decide) (by decide) (by decide)

/-- Counterexample to C4 as stated: a response that is not `EmptyPacket` but has empty `Type`
and `Data`, to a request with empty ids, is not written at all; and a response whose `Type` is
the single byte `0xFF` is written as a frame that decodes to `Type` U+FFFD. -/
theorem C4_counterexample :
    ((⟨[], [], str "x", []⟩ : WSPacket) ≠ EmptyPacket
        ∧ writes (responder (fun _ => .ok ⟨[], [], str "x", []⟩) ⟨str "echo", [], [], []⟩) = [])
      ∧ ((⟨[0xFF], [], [], []⟩ : WSPacket) ≠ EmptyPacket
        ∧ ∃ data, writes (responder (fun _ => .ok ⟨[0xFF], [], [], []⟩)
              ⟨str "echo", [], str "1", []⟩) = [data]
            ∧ Unmarshal data ⟨[], [], [], []⟩ = some ⟨[0xEF, 0xBF, 0xBD], [], str "1", []⟩) := by
  refine ⟨⟨by decide, by decide⟩, by decide, ?_⟩
  exact ⟨_, rfl, by decide⟩

/-- C5 as amended: for every `WSPacket` whose four fields are valid UTF-8, encoding succeeds
and decoding the frame succeeds and yields the same packet in all four fields. -/
theorem C5_round_trip_valid_utf8 (p v : WSPacket) (hT : Valid p.Type_ = true)
    (hD : Valid p.Data = true) (hI : Valid p.PacketID = true) (hS : Valid p.SessionID = true) :
    ∃ data, Marshal p = .ok data ∧ Unmarshal data v = some p :=
  Unmarshal_Marshal p v hT hD hI hS

/-- Witness of C5: a packet with a quote, a line feed and runes of two, three and four bytes in
its data. -/
theorem C5_witness :
    ∃ data, Marshal ⟨str "echo", str "h\"i\n é€😀", str "u-1", str "s1"⟩ = .ok data
      ∧ Unmarshal data ⟨[], [], [], []⟩
          = some ⟨str "echo", str "h\"i\n é€😀", str "u-1", str "s1"⟩ :=
  C5_round_trip_valid_utf8 ⟨str "echo", str "h\"i\n é€😀", str "u-1", str "s1"⟩ ⟨[], [], [], []⟩
    (by decide) (by decide) (by decide) (by decide)

/-- Counterexample to C5 as stated: the packet whose `Type` is the single byte `0xFF` (a Go
string need not be UTF-8) is encoded with the escape of U+FFFD and decodes to a packet whose
`Type` is the three bytes of U+FFFD. -/
theorem C5_counterexample :
    ∃ data, Marshal ⟨[0xFF], [], [], []⟩ = .ok data
      ∧ Unmarshal data ⟨[], [], [], []⟩ = some ⟨[0xEF, 0xBF, 0xBD], [], [], []⟩
      ∧ Unmarshal data ⟨[], [], [], []⟩ ≠ some ⟨[0xFF], [], [], []⟩ :=
  ⟨_, rfl, by decide, by decide⟩

/-- C6, the code at a failing input: the wrapper that `Send` registers never lets a panic of
the callback escape, but the closure that `Receive` installs has no `recover`, so a panic of
the handler ends its goroutine unrecovered; with a panicking handler for type `boom` the
`Listen` loop would start a goroutine for each of two `boom` frames, and the program ends at
the first. -/
theorem C6_handler_panic_not_recovered :
    (∀ (request resp : WSPacket) (callback : WSPacket → Except String Unit),
        panics (wrapperCallback request callback resp) = false)
      ∧ (∀ (r : WSPacket) (v : String), panics (responder (fun _ => .error v) r) = true)
      ∧ (((NewClient ⟨none, []⟩ (str "id")).Receive (str "boom") (fun _ => .error "nil map")).Listen
            [.ok (str "\x7b\"type\":\"boom\"\x7d"), .ok (str "\x7b\"type\":\"boom\"\x7d")]).trace
          = [.go .recvCallback (str "boom") ⟨str "boom", [], [], []⟩
                [.call ⟨str "boom", [], [], []⟩, .panic "nil map"],
              .go .recvCallback (str "boom") ⟨str "boom", [], [], []⟩
                [.call ⟨str "boom", [], [], []⟩, .panic "nil map"]]
      ∧ program (((NewClient ⟨none, []⟩ (str "id")).Receive (str "boom")
            (fun _ => .error "nil map")).Listen
            [.ok (str "\x7b\"type\":\"boom\"\x7d"), .ok (str "\x7b\"type\":\"boom\"\x7d")]).trace
          = [.go .recvCallback (str "boom") ⟨str "boom", [], [], []⟩
                [.call ⟨str "boom", [], [], []⟩, .panic "nil map"]] := by
  refine ⟨fun request resp callback => ?_, fun _ _ => rfl, by decide, by decide⟩
  unfold wrapperCallback
  simp only
  split <;> rfl

/-- C7 as amended: when the write fails, `Client.Send` reports nothing. It has no result; the
error that `WriteMessage` returns is dropped, the callback is registered exactly as on success,
the connection is as before, and the client is not torn down (`Done` is not closed). -/
theorem C7_write_error_dropped (c : Client) (request : WSPacket)
    (callback : Option (WSPacket → Except String Unit)) (newV4 : List Byte) (e : String)
    (hfail : c.conn.writeErr = some e) :
    (∀ data, (c.conn.WriteMessage data).2 = some e)
      ∧ (c.Send request callback newV4).Done = c.Done
      ∧ (c.Send request callback newV4).conn = c.conn
      ∧ (c.Send request callback newV4).recvCallback = c.recvCallback
      ∧ (c.Send request callback newV4).sendCallback
          = (match callback with
            | some cb =>
              mapSet c.sendCallback newV4 (wrapperCallback { request with PacketID := newV4 } cb)
            | none => c.sendCallback) := by
  have hw : ∀ data, c.conn.WriteMessage data = (c.conn, some e) := by
    intro data
    simp [Conn.WriteMessage, hfail]
  refine ⟨fun data => by rw [hw], ?_, ?_, ?_, ?_⟩
  · exact Send_Done c request callback newV4
  · cases callback <;> simp [Client.Send, Marshal, hw]
  · cases callback <;> simp [Client.Send, Marshal]
  · cases callback <;> simp [Client.Send, Marshal]

/-- Witness of C7: a heartbeat sent on a connection whose writes time out. -/
theorem C7_witness :
    (⟨some "i/o timeout", []⟩ : Conn).writeErr = some "i/o timeout"
      ∧ ((NewClient ⟨some "i/o timeout", []⟩ (str "id")).Send ⟨str "heartbeat", [], [], []⟩ none
            (str "u1")).Done = false
      ∧ ((NewClient ⟨some "i/o timeout", []⟩ (str "id")).Send ⟨str "heartbeat", [], [], []⟩ none
            (str "u1")).conn = ⟨some "i/o timeout", []⟩ :=
  ⟨rfl,
    (C7_write_error_dropped (NewClient ⟨some "i/o timeout", []⟩ (str "id"))
      ⟨str "heartbeat", [], [], []⟩ none (str "u1") "i/o timeout" rfl).2.1,
    (C7_write_error_dropped (NewClient ⟨some "i/o timeout", []⟩ (str "id"))
      ⟨str "heartbeat", [], [], []⟩ none (str "u1") "i/o timeout" rfl).2.2.1⟩

/-- Counterexample to C7 as stated: on a connection whose write fails with a timeout,
`PacketClient.Send` returns `nil`, the same result as on a healthy connection, and
`Client.Send` (which has no result) leaves the client exactly as it was. -/
theorem C7_counterexample :
    ((⟨some "i/o timeout", []⟩ : Conn).WriteMessage (str "x")).2 = some "i/o timeout"
      ∧ (PacketClient.Send ⟨⟨some "i/o timeout", []⟩⟩ ⟨str "ping", str "x"⟩).2 = none
      ∧ (PacketClient.Send ⟨⟨none, []⟩⟩ ⟨str "ping", str "x"⟩).2 = none
      ∧ (NewClient ⟨some "i/o timeout", []⟩ (str "id")).Send ⟨str "ping", [], [], []⟩ none
            (str "u1")
          = NewClient ⟨some "i/o timeout", []⟩ (str "id") := by
  refine ⟨rfl, rfl, rfl, rfl⟩


/-- C8: teardown on read failure. For a client whose `Done` is open and reads that succeed
(`pre`) up to a first failed read: while only `pre` has been read `Listen` has not returned and
`Done` is open and was never closed; at the failed read `Listen` returns, `Done` is closed, the
trace is the trace of `pre` followed by the log line and the one `close(c.Done)`, so `Done` is
closed exactly once and without panic, and nothing of what follows (`post`) is decoded or
dispatched. No other method closes `Done`: `Send`, `Receive` and `Heartbeat` leave it as it
is. -/
theorem C8_teardown_on_read_failure (c : Client) (pre : List Frame) (err : String)
    (post : List (Except String Frame)) (hopen : c.Done = false) :
    (c.Listen (pre.map .ok)).returned = false
      ∧ (c.Listen (pre.map .ok)).client.Done = false
      ∧ Event.closeDone ∉ (c.Listen (pre.map .ok)).trace
      ∧ (c.Listen (pre.map .ok ++ .error err :: post)).returned = true
      ∧ (c.Listen (pre.map .ok ++ .error err :: post)).client.Done = true
      ∧ (c.Listen (pre.map .ok ++ .error err :: post)).trace
          = (c.Listen (pre.map .ok)).trace ++ [.logRead err, .closeDone]
      ∧ (c.Listen (pre.map .ok ++ .error err :: post)).trace.count .closeDone = 1
      ∧ Event.closePanic ∉ (c.Listen (pre.map .ok ++ .error err :: post)).trace
      ∧ (∀ request callback newV4, (c.Send request callback newV4).Done = c.Done)
      ∧ (∀ id f, (c.Receive id f).Done = c.Done)
      ∧ (∀ ticks, (c.Heartbeat ticks).1.Done = c.Done) := by
  obtain ⟨h1, h2, h3, h4⟩ := Listen_live pre c
  rw [hopen] at h2
  refine ⟨h1, h2, h3, ?_⟩
  rw [Listen_append]
  simp only [Client.Listen, h2]
  simp only [Bool.false_eq_true, ↓reduceIte, List.count_append, List.mem_append, not_or, h3, h4,
    not_false_eq_true, List.count_eq_zero_of_not_mem h3, true_and]
  refine ⟨by simp, by simp, fun request callback newV4 => Send_Done c request callback newV4,
    fun _ _ => rfl, fun ticks => Heartbeat_Done ticks c⟩

/-- Witness of C8: a fresh client reads one frame, then the read fails, then a frame that
would have been dispatched: the trace ends with the one close and the heartbeat stops at its
next tick. -/
theorem C8_witness :
    (NewClient ⟨none, []⟩ (str "id")).Done = false
      ∧ ((NewClient ⟨none, []⟩ (str "id")).Listen
          ([str "\x7b\"type\":\"a\"\x7d"].map .ok ++ .error "EOF" ::
            [.ok (str "\x7b\"type\":\"a\"\x7d")])).trace.count .closeDone = 1
      ∧ (((NewClient ⟨none, []⟩ (str "id")).Listen
          ([str "\x7b\"type\":\"a\"\x7d"].map .ok ++ .error "EOF" ::
            [.ok (str "\x7b\"type\":\"a\"\x7d")])).client.Heartbeat [str "u1"]).2 = true :=
  ⟨rfl,
    (C8_teardown_on_read_failure (NewClient ⟨none, []⟩ (str "id"))
      [str "\x7b\"type\":\"a\"\x7d"] "EOF" [.ok (str "\x7b\"type\":\"a\"\x7d")] rfl).2.2.2.2.2.2.1,
    by decide⟩

/-- C9: a malformed frame is skipped without effect. For every frame whose decoding fails, the
iteration of `Listen` that reads it only prints the log line: it starts no goroutine, leaves
the client (both maps, the connection and `Done`) unchanged and does not return; and at any
place in a sequence of reads, the run with the frame is the run without it plus that log
line: same client, same return status, and the events after it are exactly those of the
remaining reads. -/
theorem C9_malformed_frame_skipped (c : Client) (bad : Frame) (pre : List Frame)
    (rest : List (Except String Frame)) (hbad : Unmarshal bad ⟨[], [], [], []⟩ = none) :
    c.Listen [.ok bad] = ⟨c, [.logDecode bad], false⟩
      ∧ (c.Listen (pre.map .ok ++ .ok bad :: rest)).trace
          = (c.Listen (pre.map .ok)).trace
            ++ .logDecode bad :: ((c.Listen (pre.map .ok)).client.Listen rest).trace
      ∧ (c.Listen (pre.map .ok ++ rest)).trace
          = (c.Listen (pre.map .ok)).trace ++ ((c.Listen (pre.map .ok)).client.Listen rest).trace
      ∧ (c.Listen (pre.map .ok ++ .ok bad :: rest)).client
          = (c.Listen (pre.map .ok ++ rest)).client
      ∧ (c.Listen (pre.map .ok ++ .ok bad :: rest)).returned
          = (c.Listen (pre.map .ok ++ rest)).returned := by
  refine ⟨?_, ?_, ?_, ?_, ?_⟩
  · rw [Listen_ok_none _ _ _ hbad]; rfl
  · rw [Listen_append, Listen_ok_none _ _ _ hbad]
  · rw [Listen_append]
  · rw [Listen_append, Listen_append, Listen_ok_none _ _ _ hbad]
  · rw [Listen_append, Listen_append, Listen_ok_none _ _ _ hbad]

/-- Witness of C9: the empty frame and a truncated object are malformed; a client with a
handler for `a` that reads the truncated object between two `a` frames dispatches both. -/
theorem C9_witness :
    Unmarshal [] ⟨[], [], [], []⟩ = none
      ∧ Unmarshal (str "\x7b\"type\":") ⟨[], [], [], []⟩ = none
      ∧ (NewClient ⟨none, []⟩ (str "id")).Listen [.ok []]
          = ⟨NewClient ⟨none, []⟩ (str "id"), [.logDecode []], false⟩
      ∧ (((NewClient ⟨none, []⟩ (str "id")).Receive (str "a") (fun _ => .ok EmptyPacket)).Listen
            ([str "\x7b\"type\":\"a\"\x7d"].map .ok ++ .ok (str "\x7b\"type\":") ::
              [.ok (str "\x7b\"type\":\"a\"\x7d")])).trace
          = [.go .recvCallback (str "a") ⟨str "a", [], [], []⟩ [.call ⟨str "a", [], [], []⟩],
              .logDecode (str "\x7b\"type\":"),
              .go .recvCallback (str "a") ⟨str "a", [], [], []⟩ [.call ⟨str "a", [], [], []⟩]] :=
  ⟨by decide, by decide,
    (C9_malformed_frame_skipped (NewClient ⟨none, []⟩ (str "id")) [] [] [] (by decide)).1,
    by decide⟩

/-- C10: routing rule of the dispatch loop. For every frame that decodes to a packet `p` and
every client state, the iteration of `Listen` does not return, leaves `recvCallback`, the
connection and `Done` as they are, and does exactly one of three things: when `sendCallback`
has an entry for `p.PacketID`, it starts that reply callback and nothing else (also when a
handler is registered for `p.Type`) and deletes the entry; otherwise, when `recvCallback` has
a handler for `p.Type`, it starts that handler and nothing else; otherwise it starts nothing,
so nothing is invoked or written, and both maps are unchanged. -/
theorem C10_dispatch_routing (c : Client) (rawMsg : Frame) (p : WSPacket)
    (hdec : Unmarshal rawMsg ⟨[], [], [], []⟩ = some p) :
    (c.Listen [.ok rawMsg]).returned = false
      ∧ (c.Listen [.ok rawMsg]).client.recvCallback = c.recvCallback
      ∧ (c.Listen [.ok rawMsg]).client.conn = c.conn
      ∧ (c.Listen [.ok rawMsg]).client.Done = c.Done
      ∧ match c.sendCallback p.PacketID, c.recvCallback p.Type_ with
        | some callback, _ =>
          (c.Listen [.ok rawMsg]).trace = [.go .sendCallback p.PacketID p (callback p)]
            ∧ (c.Listen [.ok rawMsg]).client.sendCallback = mapDelete c.sendCallback p.PacketID
        | none, some handler =>
          (c.Listen [.ok rawMsg]).trace = [.go .recvCallback p.Type_ p (handler p)]
            ∧ (c.Listen [.ok rawMsg]).client.sendCallback = c.sendCallback
        | none, none =>
          (c.Listen [.ok rawMsg]).trace = []
            ∧ (c.Listen [.ok rawMsg]).client.sendCallback = c.sendCallback := by
  rw [Listen_ok_some _ _ _ _ hdec]
  simp only [Client.Listen, List.append_nil]
  refine ⟨trivial, dispatch_recvCallback c p, dispatch_conn c p, dispatch_Done c p, ?_⟩
  unfold Client.dispatch
  cases h1 : c.sendCallback p.PacketID with
  | some cb => simp
  | none =>
    cases h2 : c.recvCallback p.Type_ with
    | some h => simp
    | none => simp

/-- Witness of C10: a packet of type `unknown` with no handler is dropped, and a packet whose
id has a pending reply callback goes to that callback although a handler for its type is
registered. -/
theorem C10_witness :
    Unmarshal (str "\x7b\"type\":\"unknown\"\x7d") ⟨[], [], [], []⟩
        = some ⟨str "unknown", [], [], []⟩
      ∧ ((NewClient ⟨none, []⟩ (str "id")).Listen
          [.ok (str "\x7b\"type\":\"unknown\"\x7d")]).trace = []
      ∧ ((((NewClient ⟨none, []⟩ (str "id")).Receive (str "echo")
            (fun _ => .ok ⟨str "echo-ack", [], [], []⟩)).Send ⟨str "echo", [], [], str "s1"⟩
            (some fun _ => .ok ()) (str "u1")).Listen
          [.ok (str "\x7b\"type\":\"echo\",\"packet_id\":\"u1\"\x7d")]).trace
          = [.go .sendCallback (str "u1") ⟨str "echo", [], str "u1", []⟩
              [.call ⟨str "echo", [], str "u1", str "s1"⟩]] :=
  ⟨by decide,
    (C10_dispatch_routing (NewClient ⟨none, []⟩ (str "id"))
      (str "\x7b\"type\":\"unknown\"\x7d") ⟨str "unknown", [], [], []⟩ (by decide)).2.2.2.2.1,
    by decide⟩

end common
